import Mathlib

/-!
Verification of the video-to-insight processing pipeline
(`pipeline/gemini_analyzer.py`, `pipeline/run_pipeline.py`,
`pipeline/csv_manager.py`, `pipeline/config.py`).

Conventions of the shallow embedding:
* Python strings are `String` (or `List Char` in the JSON layer).
* Python floats are modelled as `Rat`: every behaviour the claims mention
  (clamping, ordering against the 0.3 threshold, doubling backoff delays)
  is exact arithmetic in the source's value range.
* Python JSON values (the result of `json.loads`) are the inductive `JVal`;
  its list/object payloads use the mutually inductive `JList`/`JObj` so that
  all functions over it are plain structural recursion.
* Side-effecting code is embedded as pure functions that also return a
  trace of the effects they perform (`Effect` lists), with the external
  world (probe results, API outcomes, write success) passed in as explicit
  environment data.
-/

namespace Pipeline

/-! ## JSON data model (values produced by `json.loads`) -/

mutual

/-- The values Python's `json` module produces: `null`, booleans, numbers
(stored exactly as mantissa `m` over `10 ^ e`), strings, arrays, objects. -/
inductive JVal where
  | null : JVal
  | boolv (b : Bool) : JVal
  | num (m : Int) (e : Nat) : JVal
  | str (s : List Char) : JVal
  | arr (l : JList) : JVal
  | obj (l : JObj) : JVal

/-- A JSON array payload (isomorphic to `List JVal`, kept mutual so that
recursion over `JVal` stays structural). -/
inductive JList where
  | nil : JList
  | cons (v : JVal) (tl : JList) : JList

/-- A JSON object payload: key/value pairs in document order. -/
inductive JObj where
  | nil : JObj
  | cons (k : List Char) (v : JVal) (tl : JObj) : JObj

end

instance : Inhabited JVal := ⟨JVal.null⟩

/-! ## Structured Pass-2 record

The dict shape produced by `_parse_json_response` / `_empty_structured`
(`gemini_analyzer.py` lines 443-468): every field present with a
type-safe value.  `app_sequence` / `detected_actions` hold the
JSON-serialised array strings produced by `_ensure_json_list`. -/

structure Structured where
  workflow_description : String
  primary_app : String
  app_sequence : List Char
  detected_actions : List Char
  automation_score : Rat
  workflow_category : String
  sop_step_count : Int
  automation_candidate_count : Int
  top_automation_candidate : String
deriving Repr, DecidableEq

/-- Python `_empty_structured()` (`gemini_analyzer.py` lines 456-468). -/
def empty_structured : Structured :=
  { workflow_description := ""
    primary_app := "Unknown"
    app_sequence := ['[', ']']
    detected_actions := ['[', ']']
    automation_score := 0
    workflow_category := "other"
    sop_step_count := 0
    automation_candidate_count := 0
    top_automation_candidate := "" }

/-! ## Character and digit helpers -/

/-- Opening curly brace character. -/
def lbrace : Char := '\x7b'

/-- Closing curly brace character. -/
def rbrace : Char := '\x7d'

/-- JSON/Python whitespace characters relevant here. -/
def isWsChar (c : Char) : Bool :=
  c = ' ' || c = Char.ofNat 9 || c = Char.ofNat 10 || c = Char.ofNat 13 ||
    c = Char.ofNat 11 || c = Char.ofNat 12

/-- Drop leading whitespace. -/
def skipWs : List Char → List Char
  | [] => []
  | c :: cs => if isWsChar c then skipWs cs else c :: cs

/-- Strip whitespace from both ends (Python `str.strip()`). -/
def trimWsChars (cs : List Char) : List Char :=
  ((skipWs cs).reverse |> skipWs).reverse

/-- Longest prefix of decimal digits, and the rest. -/
def spanDigits : List Char → List Char × List Char
  | [] => ([], [])
  | c :: cs =>
    if c.isDigit then
      let p := spanDigits cs
      (c :: p.1, p.2)
    else ([], c :: cs)

/-- Big-endian decimal read-back of a digit string. -/
def digitsToNat (cs : List Char) : Nat :=
  cs.foldl (fun a c => 10 * a + (c.toNat - 48)) 0

/-- Fuel-driven decimal printer (most significant digit first, `[]` for 0). -/
def natToDigitsAux : Nat → Nat → List Char
  | 0, _ => []
  | fuel + 1, n =>
    if n = 0 then []
    else natToDigitsAux fuel (n / 10) ++ [Char.ofNat (48 + n % 10)]

/-- Decimal digits of `n`, most significant first; `"0"` for zero. -/
def natToDigits (n : Nat) : List Char :=
  if n = 0 then ['0'] else natToDigitsAux (n + 1) n

/-- Lowercase hex digit for `d < 16`. -/
def hexDigitChar (d : Nat) : Char :=
  Char.ofNat (if d < 10 then 48 + d else 87 + d)

/-- Four lowercase hex digits of `n < 0x10000`. -/
def hex4 (n : Nat) : List Char :=
  [hexDigitChar (n / 4096 % 16), hexDigitChar (n / 256 % 16),
   hexDigitChar (n / 16 % 16), hexDigitChar (n % 16)]

/-- A `\uXXXX` escape. -/
def uEsc (n : Nat) : List Char := '\\' :: 'u' :: hex4 n

/-- Value of a hex digit character. -/
def hexCharVal (c : Char) : Nat :=
  if c.toNat ≤ 57 then c.toNat - 48
  else if c.toNat ≤ 70 then c.toNat - 55
  else c.toNat - 87

/-- Recognize a hex digit character. -/
def isHexChar (c : Char) : Bool :=
  (48 ≤ c.toNat && c.toNat ≤ 57) || (97 ≤ c.toNat && c.toNat ≤ 102) ||
    (65 ≤ c.toNat && c.toNat ≤ 70)

/-! ## Serialization (`json.dumps` with default separators, ensure_ascii) -/

/-- Escape one character the way `json.dumps` (ensure_ascii) does: short
escapes for quote, backslash and the common controls, printable ASCII
verbatim, everything else as `\uXXXX` (surrogate pairs above U+FFFF). -/
def escapeChar (c : Char) : List Char :=
  if c = '\"' then ['\\', '\"']
  else if c = '\\' then ['\\', '\\']
  else if c = Char.ofNat 8 then ['\\', 'b']
  else if c = Char.ofNat 9 then ['\\', 't']
  else if c = Char.ofNat 10 then ['\\', 'n']
  else if c = Char.ofNat 12 then ['\\', 'f']
  else if c = Char.ofNat 13 then ['\\', 'r']
  else if 32 ≤ c.toNat ∧ c.toNat ≤ 126 then [c]
  else if c.toNat < 65536 then uEsc c.toNat
  else uEsc (55296 + (c.toNat - 65536) / 1024) ++
    uEsc (56320 + (c.toNat - 65536) % 1024)

/-- Escape a whole string body. -/
def escapeStr : List Char → List Char
  | [] => []
  | c :: cs => escapeChar c ++ escapeStr cs

/-- Serialize a JSON string (quotes plus escaped body). -/
def dumpStr (s : List Char) : List Char := '\"' :: escapeStr s ++ ['\"']

/-- Serialize the number `m / 10 ^ e`: integers without a point, otherwise
exactly `e` fractional digits (zero padded). -/
def dumpNum (m : Int) (e : Nat) : List Char :=
  let a := m.natAbs
  let sign : List Char := if m < 0 then ['-'] else []
  if e = 0 then sign ++ natToDigits a
  else
    let fd := natToDigits (a % 10 ^ e)
    sign ++ natToDigits (a / 10 ^ e) ++
      '.' :: (List.replicate (e - fd.length) '0' ++ fd)

mutual

/-- Model of `json.dumps` (default separators `", "` and `": "`). -/
def dumpVal : JVal → List Char
  | .null => ['n', 'u', 'l', 'l']
  | .boolv true => ['t', 'r', 'u', 'e']
  | .boolv false => ['f', 'a', 'l', 's', 'e']
  | .num m e => dumpNum m e
  | .str s => dumpStr s
  | .arr .nil => ['[', ']']
  | .arr (.cons v tl) => '[' :: (dumpVal v ++ dumpItems tl) ++ [']']
  | .obj .nil => [lbrace, rbrace]
  | .obj (.cons k v tl) =>
      lbrace :: (dumpStr k ++ ':' :: ' ' :: dumpVal v ++ dumpFields tl) ++
        [rbrace]

/-- Comma-separated continuation of an array body. -/
def dumpItems : JList → List Char
  | .nil => []
  | .cons v tl => ',' :: ' ' :: dumpVal v ++ dumpItems tl

/-- Comma-separated continuation of an object body. -/
def dumpFields : JObj → List Char
  | .nil => []
  | .cons k v tl =>
      ',' :: ' ' :: dumpStr k ++ ':' :: ' ' :: dumpVal v ++ dumpFields tl

end

/-! ## Parsing (`json.loads`) -/

/-- Consume an expected literal character sequence. -/
def expectChars : List Char → List Char → Option (List Char)
  | [], cs => some cs
  | _ :: _, [] => none
  | e :: es, c :: cs => if c = e then expectChars es cs else none

/-- Decode a JSON string body after the opening quote into UTF-16-style
code units (escapes resolved, surrogates not yet merged); returns the
units and the input after the closing quote. -/
def parseStrUnits : List Char → Option (List Nat × List Char)
  | [] => none
  | c :: cs =>
    if c = '\"' then some ([], cs)
    else if c = '\\' then
      match cs with
      | [] => none
      | e :: cs₂ =>
        if e = '\"' then (parseStrUnits cs₂).map (fun p => (34 :: p.1, p.2))
        else if e = '\\' then (parseStrUnits cs₂).map (fun p => (92 :: p.1, p.2))
        else if e = '/' then (parseStrUnits cs₂).map (fun p => (47 :: p.1, p.2))
        else if e = 'b' then (parseStrUnits cs₂).map (fun p => (8 :: p.1, p.2))
        else if e = 'f' then (parseStrUnits cs₂).map (fun p => (12 :: p.1, p.2))
        else if e = 'n' then (parseStrUnits cs₂).map (fun p => (10 :: p.1, p.2))
        else if e = 'r' then (parseStrUnits cs₂).map (fun p => (13 :: p.1, p.2))
        else if e = 't' then (parseStrUnits cs₂).map (fun p => (9 :: p.1, p.2))
        else if e = 'u' then
          match cs₂ with
          | h1 :: h2 :: h3 :: h4 :: cs₃ =>
            if isHexChar h1 && isHexChar h2 && isHexChar h3 && isHexChar h4 then
              (parseStrUnits cs₃).map (fun p =>
                ((((hexCharVal h1 * 16 + hexCharVal h2) * 16 +
                  hexCharVal h3) * 16 + hexCharVal h4) :: p.1, p.2))
            else none
          | _ => none
        else none
    else (parseStrUnits cs).map (fun p => (c.toNat :: p.1, p.2))

/-- Merge adjacent high/low surrogate code units (the way `json.loads`
recombines `\uD...\uD...` pairs) and convert to characters.  A lone
surrogate, which Lean's `Char` cannot hold, degrades to `Char.ofNat`'s
fallback; `json.dumps` output never contains one. -/
def mergeSurrogates : List Nat → List Char
  | [] => []
  | [a] => [Char.ofNat a]
  | a :: b :: t =>
    if 55296 ≤ a ∧ a ≤ 56319 ∧ 56320 ≤ b ∧ b ≤ 57343 then
      Char.ofNat (65536 + (a - 55296) * 1024 + (b - 56320)) :: mergeSurrogates t
    else Char.ofNat a :: mergeSurrogates (b :: t)

/-- Parse a JSON string body after the opening quote: decoded characters
plus the input after the closing quote. -/
def parseStringBody (cs : List Char) : Option (List Char × List Char) :=
  (parseStrUnits cs).map (fun p => (mergeSurrogates p.1, p.2))

/-- Build the `JVal` number from sign, integer digits, fraction digits and
decimal exponent. -/
def mkNum (neg : Bool) (ds fds : List Char) (x : Int) : JVal :=
  let e0 : Nat := fds.length
  let n : Nat := digitsToNat (ds ++ fds)
  let sgn : Int := if neg then -1 else 1
  if (e0 : Int) ≤ x then .num (sgn * n * 10 ^ (x - e0).toNat) 0
  else .num (sgn * n) ((e0 : Int) - x).toNat

/-- Parse a JSON number starting at the current character. -/
def parseNumber (cs : List Char) : Option (JVal × List Char) :=
  let p := if cs.head? = some '-' then (true, cs.tail) else (false, cs)
  let neg := p.1
  let q := spanDigits p.2
  let ds := q.1
  let r := q.2
  if ds = [] then none
  else
    let fp :=
      if r.head? = some '.' then
        let w := spanDigits r.tail
        (w.1, w.2, true)
      else ([], r, true)
    let fds := fp.1
    let r₂ := fp.2.1
    if r.head? = some '.' ∧ fds = [] then none
    else if r₂.head? = some 'e' ∨ r₂.head? = some 'E' then
      let t := r₂.tail
      let ep :=
        if t.head? = some '-' then ((-1 : Int), t.tail)
        else if t.head? = some '+' then ((1 : Int), t.tail)
        else ((1 : Int), t)
      let w := spanDigits ep.2
      if w.1 = [] then none
      else some (mkNum neg ds fds (ep.1 * (digitsToNat w.1 : Int)), w.2)
    else some (mkNum neg ds fds 0, r₂)

mutual

/-- Model of the JSON value parser underlying `json.loads`: returns the
value and the unconsumed input.  `fuel` bounds the recursion depth; every
call site supplies enough for the input at hand. -/
def parseValue : Nat → List Char → Option (JVal × List Char)
  | 0, _ => none
  | fuel + 1, cs0 =>
    match skipWs cs0 with
    | [] => none
    | c :: r =>
      if c = 'n' then (expectChars ['u', 'l', 'l'] r).map (fun r' => (.null, r'))
      else if c = 't' then (expectChars ['r', 'u', 'e'] r).map (fun r' => (.boolv true, r'))
      else if c = 'f' then (expectChars ['a', 'l', 's', 'e'] r).map (fun r' => (.boolv false, r'))
      else if c = '\"' then (parseStringBody r).map (fun p => (.str p.1, p.2))
      else if c = '[' then
        let r₁ := skipWs r
        if r₁.head? = some ']' then some (.arr .nil, r₁.tail)
        else (parseItems fuel r₁).map (fun p => (.arr p.1, p.2))
      else if c = lbrace then
        let r₁ := skipWs r
        if r₁.head? = some rbrace then some (.obj .nil, r₁.tail)
        else (parseFields fuel r₁).map (fun p => (.obj p.1, p.2))
      else if c = '-' ∨ c.isDigit then parseNumber (c :: r)
      else none

/-- Parse the elements of a non-empty array body up to and including the
closing bracket. -/
def parseItems : Nat → List Char → Option (JList × List Char)
  | 0, _ => none
  | fuel + 1, cs =>
    match parseValue fuel cs with
    | none => none
    | some (v, r) =>
      let r₁ := skipWs r
      if r₁.head? = some ',' then
        (parseItems fuel r₁.tail).map (fun p => (.cons v p.1, p.2))
      else if r₁.head? = some ']' then some (.cons v .nil, r₁.tail)
      else none

/-- Parse the fields of a non-empty object body up to and including the
closing brace. -/
def parseFields : Nat → List Char → Option (JObj × List Char)
  | 0, _ => none
  | fuel + 1, cs =>
    match skipWs cs with
    | [] => none
    | c :: r =>
      if c = '\"' then
        match parseStringBody r with
        | none => none
        | some (k, r₁) =>
          let r₂ := skipWs r₁
          if r₂.head? = some ':' then
            match parseValue fuel r₂.tail with
            | none => none
            | some (v, r₃) =>
              let r₄ := skipWs r₃
              if r₄.head? = some ',' then
                (parseFields fuel r₄.tail).map (fun p => (.cons k v p.1, p.2))
              else if r₄.head? = some rbrace then some (.cons k v .nil, r₄.tail)
              else none
          else none
      else none

end

/-- Model of `json.loads`: parse one value and require only trailing
whitespace after it. -/
def jloads (cs : List Char) : Option JVal :=
  match parseValue (cs.length + 1) cs with
  | some (v, rest) => if skipWs rest = [] then some v else none
  | none => none

/-- Does the string parse as a JSON array? (`json.loads` succeeding with a
Python `list`.) -/
def parsesAsArr (cs : List Char) : Bool :=
  match jloads cs with
  | some (.arr _) => true
  | _ => false

/-- Python `_ensure_json_list(value)` (`gemini_analyzer.py` 471-483):
lists are serialized, strings already encoding a JSON array are kept,
other strings are wrapped in a one-element array, anything else becomes
`"[]"`. -/
def ensure_json_list : JVal → List Char
  | .arr l => dumpVal (.arr l)
  | .str s => if parsesAsArr s then s else dumpVal (.arr (.cons (.str s) .nil))
  | _ => dumpVal (.arr .nil)

/-! ## Python float()/int() conversions (`_clamp_float`, `_safe_int`) -/

/-- Rational value of sign/integer-digits/fraction-digits/exponent parts
(`mkRat` keeps every value kernel-computable). -/
def ratOfParts (neg : Bool) (ds fds : List Char) (x : Int) : Rat :=
  let n : Nat := digitsToNat (ds ++ fds)
  let e0 : Int := (fds.length : Int)
  let q : Rat :=
    if e0 ≤ x then mkRat (n * 10 ^ (x - e0).toNat) 1
    else mkRat n (10 ^ (e0 - x).toNat)
  if neg then -q else q

/-- Model of Python `float(s)` on a string: optional surrounding whitespace,
optional sign, decimal digits with optional fraction and exponent (the
`inf`/`nan` spellings are outside the modelled subset). `none` models
`ValueError`. -/
def pyFloatOfChars (cs : List Char) : Option Rat :=
  let cs := trimWsChars cs
  let (neg, cs₁) :=
    if cs.head? = some '-' then (true, cs.tail)
    else if cs.head? = some '+' then (false, cs.tail) else (false, cs)
  let (ds, r) := spanDigits cs₁
  let (fds, r₂) :=
    if r.head? = some '.' then spanDigits r.tail else ([], r)
  if ds = [] ∧ fds = [] then none
  else if r₂.head? = some 'e' ∨ r₂.head? = some 'E' then
    let t := r₂.tail
    let (esgn, t₁) :=
      if t.head? = some '-' then ((-1 : Int), t.tail)
      else if t.head? = some '+' then ((1 : Int), t.tail) else ((1 : Int), t)
    let (eds, r₃) := spanDigits t₁
    if eds = [] ∨ r₃ ≠ [] then none
    else some (ratOfParts neg ds fds (esgn * (digitsToNat eds : Int)))
  else if r₂ ≠ [] then none
  else some (ratOfParts neg ds fds 0)

/-- Model of Python `float(value)` on a JSON-derived value: numbers and
booleans convert, numeric strings are parsed, everything else raises
(`none`). -/
def float_of : JVal → Option Rat
  | .num m e => some (mkRat m (10 ^ e))
  | .boolv b => some (if b then 1 else 0)
  | .str s => pyFloatOfChars s
  | _ => none

/-- Python `_clamp_float(value, min_val, max_val)`
(`gemini_analyzer.py` 486-492): convert then clamp, 0.0 on failure. -/
def clamp_float (value : JVal) (min_val max_val : Rat) : Rat :=
  match float_of value with
  | some v => max min_val (min max_val v)
  | none => 0

/-- Truncation toward zero, as Python `int()` on a float. -/
def ratTrunc (q : Rat) : Int := if 0 ≤ q then ⌊q⌋ else ⌈q⌉

/-- Python `_safe_int(value)` (`gemini_analyzer.py` 495-500):
`int(float(value))`, 0 on conversion failure. -/
def safe_int (value : JVal) : Int :=
  match float_of value with
  | some q => ratTrunc q
  | none => 0

/-! ## Pass-2 structured extraction (`_parse_json_response`, 427-453) -/

/-- Find a key in an object; duplicate keys resolve to the last occurrence,
matching `json.loads` building a Python dict. -/
def objFind : JObj → List Char → Option JVal
  | .nil, _ => none
  | .cons k v tl, key =>
    match objFind tl key with
    | some r => some r
    | none => if k = key then some v else none

/-- Python `dict.get(key, default)`. -/
def objGet (o : JObj) (key : List Char) (default : JVal) : JVal :=
  (objFind o key).getD default

/-- Model of Python `str(value)` on a JSON-derived value.  Strings,
booleans and `None` render exactly as Python does; numbers and containers
are rendered through `dumpVal`, a close approximation of Python's `repr`
(no claim depends on those renderings). -/
def pyStr : JVal → String
  | .str s => String.mk s
  | .boolv true => "True"
  | .boolv false => "False"
  | .null => "None"
  | v => String.mk (dumpVal v)

/-- The field extraction of `_parse_json_response`
(`gemini_analyzer.py` 443-453) applied to a successfully decoded JSON
object. -/
def structuredOfData (data : JObj) : Structured :=
  { workflow_description := pyStr (objGet data "workflow_description".data (.str []))
    primary_app := pyStr (objGet data "primary_app".data (.str "Unknown".data))
    app_sequence := ensure_json_list (objGet data "app_sequence".data (.arr .nil))
    detected_actions := ensure_json_list (objGet data "detected_actions".data (.arr .nil))
    automation_score := clamp_float (objGet data "automation_score".data (.num 0 1)) 0 1
    workflow_category := pyStr (objGet data "workflow_category".data (.str "other".data))
    sop_step_count := safe_int (objGet data "sop_step_count".data (.num 0 0))
    automation_candidate_count := safe_int (objGet data "automation_candidate_count".data (.num 0 0))
    top_automation_candidate := pyStr (objGet data "top_automation_candidate".data (.str [])) }

/-- Backquote character. -/
def backquote : Char := '\x60'

/-- Boolean prefix test on character lists. -/
def isPrefixChars : List Char → List Char → Bool
  | [], _ => true
  | _ :: _, [] => false
  | p :: ps, c :: cs => p = c && isPrefixChars ps cs

/-- Scan for the first closing brace that is followed by optional
whitespace and a closing triple backquote (the lazy `.*?` of the fence
regex); returns the accumulated braced body. -/
def findCloseAux : List Char → List Char → Option (List Char)
  | [], _ => none
  | c :: r, acc =>
    if c = rbrace ∧ isPrefixChars [backquote, backquote, backquote] (skipWs r) then
      some (lbrace :: acc.reverse ++ [rbrace])
    else findCloseAux r (c :: acc)

/-- Attempt the fence pattern right after an opening triple backquote:
optional `json` tag, whitespace, then a lazily-matched braced body. -/
def matchFenceAt (cs : List Char) : Option (List Char) :=
  let cs₁ := if isPrefixChars ['j', 's', 'o', 'n'] cs then cs.drop 4 else cs
  match skipWs cs₁ with
  | c :: r => if c = lbrace then findCloseAux r [] else none
  | [] => none

/-- Model of `re.search` for the code-fence rescue pattern of
`_parse_json_response` (`gemini_analyzer.py` line 432). -/
def extractFenced : List Char → Option (List Char)
  | [] => none
  | c :: cs =>
    if c = backquote ∧ isPrefixChars [backquote, backquote] cs then
      match matchFenceAt (cs.drop 2) with
      | some mid => some mid
      | none => extractFenced cs
    else extractFenced cs

/-- Python `_parse_json_response(response_text, ...)`: direct `json.loads`,
then the code-fence rescue, then the `_empty_structured` fallback.  A
successfully decoded non-object value makes the original raise
`AttributeError` at `data.get`; that path (unreachable from the claims,
Pass 2 runs in JSON response mode) is mapped to the empty fallback here. -/
def parse_json_response (response_text : List Char) : Structured :=
  match jloads response_text with
  | some (.obj data) => structuredOfData data
  | some _ => empty_structured
  | none =>
    match extractFenced response_text with
    | some sub =>
      match jloads sub with
      | some (.obj data) => structuredOfData data
      | _ => empty_structured
    | none => empty_structured

/-! ## Quality gate (`_check_analysis_quality`, `gemini_analyzer.py` 503-535) -/

/-- Python `str.strip()` (whitespace from both ends). -/
def pyStrip (s : String) : String := String.mk (trimWsChars s.data)

/-- Python `_check_analysis_quality(structured)`: ordered checks with the
first failing check deciding the verdict.  Returns
(`is_useful`, `reason`).  The score is interpolated into the third
message via `toString` in place of Python's float formatting; no claim
depends on that rendering. -/
def check_analysis_quality (structured : Structured) : Bool × String :=
  let primary_app := pyStrip structured.primary_app
  let automation_score := structured.automation_score
  let sop_steps := structured.sop_step_count
  let workflow_desc := pyStrip structured.workflow_description
  if primary_app = "" ∨ primary_app = "Unknown" ∨ primary_app = "N/A" ∨
      primary_app = "None" then
    (false, "No application detected")
  else if sop_steps = 0 then
    (false, "No workflow steps detected")
  else if automation_score < mkRat 3 10 then
    (false, "Very low automation potential (score: " ++
      toString automation_score ++ ")")
  else if workflow_desc = "" ∨ workflow_desc.length < 20 then
    (false, "No meaningful workflow description")
  else
    (true, "")

/-! ## Configuration constants (`config.py`) -/

/-- Python `MAX_API_RETRIES` (`config.py` line 60). -/
def MAX_API_RETRIES : Nat := 5

/-- Python `RATE_LIMIT_INITIAL_BACKOFF` (`config.py` line 63). -/
def RATE_LIMIT_INITIAL_BACKOFF : Rat := 10

/-- Python `API_CALL_DELAY_SECONDS` (`config.py` line 51). -/
def API_CALL_DELAY_SECONDS : Rat := 5

/-- Python `MIN_VIDEO_DURATION_SEC` (`config.py` line 73). -/
def MIN_VIDEO_DURATION_SEC : Rat := 5

/-- Python `MAX_VIDEO_DURATION_SEC` (`config.py` line 76). -/
def MAX_VIDEO_DURATION_SEC : Rat := 3600

/-- Python `VIDEO_UPLOAD_POLL_INTERVAL` (`config.py` line 54). -/
def VIDEO_UPLOAD_POLL_INTERVAL : Nat := 5

/-- Python `VIDEO_UPLOAD_TIMEOUT` default (`config.py` line 57). -/
def VIDEO_UPLOAD_TIMEOUT : Nat := 300

/-! ## Model-call retry loop (`_call_gemini`, `gemini_analyzer.py` 368-419) -/

/-- Substring test (Python `in` on strings). -/
def containsSub : List Char → List Char → Bool
  | [], needle => isPrefixChars needle []
  | c :: t, needle => isPrefixChars needle (c :: t) || containsSub t needle

/-- Lowercase a character list (Python `str.lower()` on the ASCII error
messages involved here). -/
def lowerChars (cs : List Char) : List Char := cs.map Char.toLower

/-- One attempt's outcome as seen by `_call_gemini`: a response with the
given `.text` (empty models a falsy text), or a raised exception with the
given message. -/
inductive CallOutcome where
  | ok (text : String)
  | exc (msg : String)

/-- The rate-limit classification of `_call_gemini` (line 404):
`"429" in str(e) or "resource_exhausted" in lower or "quota" in lower`. -/
def isRateLimitMsg (msg : String) : Bool :=
  containsSub msg.data "429".data ||
    containsSub (lowerChars msg.data) "resource_exhausted".data ||
    containsSub (lowerChars msg.data) "quota".data

/-- The safety-block classification of `_call_gemini` (line 410):
`"safety" in lower or "blocked" in lower`. -/
def isBlockedMsg (msg : String) : Bool :=
  containsSub (lowerChars msg.data) "safety".data ||
    containsSub (lowerChars msg.data) "blocked".data

/-- The retry loop of `_call_gemini`: `env attempt` is what the
`generate_content` call does on that (1-based) attempt.  Returns the
returned text (`none` models returning `None`) and the list of sleep
durations performed, in order. -/
def callGeminiAux (env : Nat → CallOutcome) (maxRetries : Nat) :
    Nat → Nat → Option String × List Rat
  | 0, _ => (none, [])
  | rem + 1, attempt =>
    match env attempt with
    | .ok text =>
      if text ≠ "" then (some text, [])
      else callGeminiAux env maxRetries rem (attempt + 1)
    | .exc msg =>
      if isRateLimitMsg msg then
        let wait := RATE_LIMIT_INITIAL_BACKOFF * 2 ^ (attempt - 1)
        let p := callGeminiAux env maxRetries rem (attempt + 1)
        (p.1, wait :: p.2)
      else if isBlockedMsg msg then (none, [])
      else if attempt < maxRetries then
        let p := callGeminiAux env maxRetries rem (attempt + 1)
        (p.1, API_CALL_DELAY_SECONDS :: p.2)
      else callGeminiAux env maxRetries rem (attempt + 1)

/-- Python `_call_gemini` with `MAX_API_RETRIES = 5`: attempts run at
indices 1..5. -/
def call_gemini (env : Nat → CallOutcome) : Option String × List Rat :=
  callGeminiAux env MAX_API_RETRIES MAX_API_RETRIES 1

/-! ## SHA-256 (the `hashlib.sha256(...).hexdigest()` used for video ids) -/

/-- Word modulus. -/
def M32 : Nat := 4294967296

/-- Rotate a 32-bit word right by `n`. -/
def rotr32 (n x : Nat) : Nat := x / 2 ^ n + x % 2 ^ n * 2 ^ (32 - n)

/-- SHA-256 choose function. -/
def sha_ch (e f g : Nat) : Nat := (e &&& f) ^^^ ((e ^^^ (M32 - 1)) &&& g)

/-- SHA-256 majority function. -/
def sha_maj (a b c : Nat) : Nat := (a &&& b) ^^^ (a &&& c) ^^^ (b &&& c)

/-- SHA-256 big sigma 0. -/
def bigSigma0 (a : Nat) : Nat := rotr32 2 a ^^^ rotr32 13 a ^^^ rotr32 22 a

/-- SHA-256 big sigma 1. -/
def bigSigma1 (e : Nat) : Nat := rotr32 6 e ^^^ rotr32 11 e ^^^ rotr32 25 e

/-- SHA-256 small sigma 0. -/
def smallSigma0 (w : Nat) : Nat := rotr32 7 w ^^^ rotr32 18 w ^^^ w / 2 ^ 3

/-- SHA-256 small sigma 1. -/
def smallSigma1 (w : Nat) : Nat := rotr32 17 w ^^^ rotr32 19 w ^^^ w / 2 ^ 10

/-- SHA-256 round constants. -/
def shaK : List Nat :=
  [1116352408, 1899447441, 3049323471, 3921009573, 961987163, 1508970993,
   2453635748, 2870763221, 3624381080, 310598401, 607225278, 1426881987,
   1925078388, 2162078206, 2614888103, 3248222580, 3835390401, 4022224774,
   264347078, 604807628, 770255983, 1249150122, 1555081692, 1996064986,
   2554220882, 2821834349, 2952996808, 3210313671, 3336571891, 3584528711,
   113926993, 338241895, 666307205, 773529912, 1294757372, 1396182291,
   1695183700, 1986661051, 2177026350, 2456956037, 2730485921, 2820302411,
   3259730800, 3345764771, 3516065817, 3600352804, 4094571909, 275423344,
   430227734, 506948616, 659060556, 883997877, 958139571, 1322822218,
   1537002063, 1747873779, 1955562222, 2024104815, 2227730452, 2361852424,
   2428436474, 2756734187, 3204031479, 3329325298]

/-- SHA-256 initial hash state. -/
def shaH0 : List Nat :=
  [1779033703, 3144134277, 1013904242, 2773480762,
   1359893119, 2600822924, 528734635, 1541459225]

/-- Big-endian byte expansion of a value into `n` bytes. -/
def toBytesBE : Nat → Nat → List Nat
  | 0, _ => []
  | n + 1, v => toBytesBE n (v / 256) ++ [v % 256]

/-- SHA-256 message padding: `0x80`, zeros to 56 mod 64, 64-bit length. -/
def sha256pad (msg : List Nat) : List Nat :=
  let L := msg.length
  msg ++ 128 :: List.replicate ((64 - (L + 9) % 64) % 64) 0 ++
    toBytesBE 8 (8 * L)

/-- Group bytes into big-endian 32-bit words. -/
def bytesToWords : List Nat → List Nat
  | b0 :: b1 :: b2 :: b3 :: rest =>
    (((b0 * 256 + b1) * 256 + b2) * 256 + b3) :: bytesToWords rest
  | _ => []

/-- Split into 64-byte chunks (fuel-driven). -/
def chunksAux : Nat → List Nat → List (List Nat)
  | 0, _ => []
  | n + 1, l => if l = [] then [] else l.take 64 :: chunksAux n (l.drop 64)

/-- Extend the 16 message words to 64 (accumulator holds the schedule in
reverse). -/
def scheduleAux : Nat → List Nat → List Nat
  | 0, acc => acc.reverse
  | n + 1, acc =>
    let w := (smallSigma1 (acc.getD 1 0) + acc.getD 6 0 +
      smallSigma0 (acc.getD 14 0) + acc.getD 15 0) % M32
    scheduleAux n (w :: acc)

/-- The full 64-word message schedule of one chunk. -/
def msgSchedule (ws : List Nat) : List Nat := scheduleAux 48 ws.reverse

/-- One compression round over the 8-word working state. -/
def compressStep (st : List Nat) (kw : Nat × Nat) : List Nat :=
  match st with
  | [a, b, c, d, e, f, g, h] =>
    let t1 := (h + bigSigma1 e + sha_ch e f g + kw.1 + kw.2) % M32
    let t2 := (bigSigma0 a + sha_maj a b c) % M32
    [(t1 + t2) % M32, a, b, c, (d + t1) % M32, e, f, g]
  | other => other

/-- Process one 64-byte chunk into the running hash state. -/
def processChunk (h : List Nat) (chunk : List Nat) : List Nat :=
  let st := (shaK.zip (msgSchedule (bytesToWords chunk))).foldl compressStep h
  (h.zip st).map (fun p => (p.1 + p.2) % M32)

/-- SHA-256 of a byte string, as eight 32-bit words. -/
def sha256words (msg : List Nat) : List Nat :=
  let padded := sha256pad msg
  (chunksAux padded.length padded).foldl processChunk shaH0

/-- SHA-256 hex digest (64 lowercase hex characters), as
`hashlib.sha256(...).hexdigest()`. -/
def sha256hex (msg : List Nat) : List Char :=
  ((sha256words msg).map (fun w => hex4 (w / 65536) ++ hex4 (w % 65536))).flatten

/-- UTF-8 encoding of one character. -/
def utf8Bytes (c : Char) : List Nat :=
  let n := c.toNat
  if n < 128 then [n]
  else if n < 2048 then [192 + n / 64, 128 + n % 64]
  else if n < 65536 then [224 + n / 4096, 128 + n / 64 % 64, 128 + n % 64]
  else [240 + n / 262144, 128 + n / 4096 % 64, 128 + n / 64 % 64, 128 + n % 64]

/-- Python `s.encode("utf-8")`. -/
def utf8Encode (s : String) : List Nat := (s.data.map utf8Bytes).flatten

/-! ## Session rows and the video identifier
(`update_workflow_sessions_status`, `csv_manager.py` 278-341) -/

/-- One row of `workflow_sessions.csv` as the status updater sees it:
the path columns it hashes plus the unrelated fields. -/
structure SessionRow where
  sourcePath : String
  mp4Path : String
  taskDescription : String
  username : String
  status : String
  rejectionReason : String

/-- The video id recomputation of `update_workflow_sessions_status`
(`csv_manager.py` lines 316-319):
`hashlib.sha256(id_source.encode("utf-8")).hexdigest()[:12]` where
`id_source` is the source path if non-empty, else the MP4 path. -/
def rowVideoId (row : SessionRow) : List Char :=
  let id_source := if row.sourcePath ≠ "" then row.sourcePath else row.mp4Path
  (sha256hex (utf8Encode id_source)).take 12

/-! ## Analysis engine effect model (`analyze_video`, `_upload_video`) -/

/-- File-API processing state (`video_file.state.name`):
`"PROCESSING"`, `"FAILED"`, or anything else (ready). -/
inductive UpState where
  | processing
  | failed
  | active
deriving DecidableEq

/-- Observable effects of one `analyze_video` call. -/
inductive AEffect where
  | upload
  | pollSleep (secs : Nat)
  | deleteFile
  | pass1Call
  | pass2Call
deriving DecidableEq

/-- How `_upload_video` exits. -/
inductive UploadOutcome where
  | ok
  | failedState
  | timedOut
deriving DecidableEq

/-- The polling loop of `_upload_video` (`gemini_analyzer.py` 190-203):
`states k` is the file state observed after `k` refreshes; `fuel` is the
number of sleeps still allowed before `elapsed` reaches the timeout
(initially `VIDEO_UPLOAD_TIMEOUT / VIDEO_UPLOAD_POLL_INTERVAL`).  On
timeout the stuck file is deleted best-effort before raising. -/
def uploadLoopAux (states : Nat → UpState) : Nat → Nat → List AEffect × UploadOutcome
  | 0, k =>
    match states k with
    | .processing => ([.deleteFile], .timedOut)
    | .failed => ([], .failedState)
    | .active => ([], .ok)
  | fuel + 1, k =>
    match states k with
    | .processing =>
      let p := uploadLoopAux states fuel (k + 1)
      (.pollSleep VIDEO_UPLOAD_POLL_INTERVAL :: p.1, p.2)
    | .failed => ([], .failedState)
    | .active => ([], .ok)

/-- Python `_upload_video` (`gemini_analyzer.py` 177-209): upload, then
poll until the state leaves `PROCESSING` or 300s elapse. -/
def upload_video (states : Nat → UpState) : List AEffect × UploadOutcome :=
  let p := uploadLoopAux states (VIDEO_UPLOAD_TIMEOUT / VIDEO_UPLOAD_POLL_INTERVAL) 0
  (.upload :: p.1, p.2)

/-- Environment of one `analyze_video` call: whether the local file
exists, the polled upload states, and the texts the two `_call_gemini`
invocations produce (`none` = the call returned `None`). -/
structure AnalyzeEnv where
  fileExists : Bool
  states : Nat → UpState
  pass1 : Option String
  pass2 : Option String

/-- The result dict of `analyze_video` (markdown, structured fields,
quality verdict).  The parsed A-E `sections` dict — a pure function of
`markdown` that no claim touches — is omitted. -/
structure AnalyzeResult where
  markdown : String
  structured : Structured
  is_useful : Bool
  rejection_reason : String

/-- Python `analyze_video` (`gemini_analyzer.py` 263-365) as effects plus
returned value.  The `try/except (TimeoutError, RuntimeError)` catches the
upload failures (returning `None`); the `finally` deletes the uploaded
handle only when the local `video_file` variable was assigned, i.e. only
when `_upload_video` returned normally. -/
def analyze_video (env : AnalyzeEnv) : List AEffect × Option AnalyzeResult :=
  if ¬env.fileExists then ([], none)
  else
    let up := upload_video env.states
    match up.2 with
    | .timedOut => (up.1, none)
    | .failedState => (up.1, none)
    | .ok =>
      match env.pass1 with
      | none => (up.1 ++ [.pass1Call, .deleteFile], none)
      | some md =>
        if md = "" then (up.1 ++ [.pass1Call, .deleteFile], none)
        else
          let structured :=
            match env.pass2 with
            | some t => if t = "" then empty_structured else parse_json_response t.data
            | none => empty_structured
          let q := check_analysis_quality structured
          (up.1 ++ [.pass1Call, .pass2Call, .deleteFile],
            some { markdown := md, structured := structured,
                   is_useful := q.1, rejection_reason := q.2 })

/-! ## Orchestrator per-video state machine (`run_pipeline.py` 130-267) -/

/-- Observable effects of the orchestrator loop. -/
inductive Effect where
  | analyzeCall (videoId : String)
  | moveToMisrecordings (reason : String)
  | markRejected (videoId reason : String)
  | markProcessed (videoId : String)
  | updateStatus (videoId status reason : String)
  | saveMarkdown (videoId : String)
  | appendRow (ok : Bool)
  | sleepDelay (secs : Rat)
deriving DecidableEq

/-- The orchestrator's view of `analyze_video`'s result dict. -/
structure AnalysisRes where
  is_useful : Bool
  rejection_reason : String
deriving DecidableEq

/-- One discovered video together with its environment: the duration the
probe reports, what `analyze_video` would return, and whether
`append_row` would succeed. -/
structure VideoItem where
  video_id : String
  source_path : String
  mp4_path : String
  task_description : String
  duration : Rat
  analysis : Option AnalysisRes
  append_ok : Bool

/-- The duration-bound rejection reasons (`run_pipeline.py` 162, 175);
`toString` stands in for Python's float formatting. -/
def tooShortReason (d : Rat) : String := "Too short: " ++ toString d ++ "s"

/-- Reason string for over-long videos. -/
def tooLongReason (d : Rat) : String := "Too long: " ++ toString d ++ "s"

/-- One iteration of the orchestrator loop (`run_pipeline.py` 130-267) as
an effect trace.  `isLast` is the negation of `i < len(to_process)`;
`dryRun`/`metadataOnly` are the corresponding flags.  Failure paths
(missing path, failed analysis, failed append) contribute their error
bookkeeping but no further effects, exactly as the `continue`s do. -/
def processVideo (dryRun metadataOnly isLast : Bool) (v : VideoItem) : List Effect :=
  let video_path := if v.mp4_path ≠ "" then v.mp4_path else v.source_path
  if video_path = "" then []
  else if dryRun then []
  else
    if 0 < v.duration ∧ v.duration < MIN_VIDEO_DURATION_SEC then
      [.moveToMisrecordings (tooShortReason v.duration),
       .markRejected v.video_id (tooShortReason v.duration),
       .updateStatus v.video_id "Rejected" (tooShortReason v.duration)]
    else if 0 < v.duration ∧ MAX_VIDEO_DURATION_SEC < v.duration then
      [.moveToMisrecordings (tooLongReason v.duration),
       .markRejected v.video_id (tooLongReason v.duration),
       .updateStatus v.video_id "Rejected" (tooLongReason v.duration)]
    else if metadataOnly = false then
      match v.analysis with
      | none => [.analyzeCall v.video_id]
      | some res =>
        if res.is_useful = false then
          [.analyzeCall v.video_id,
           .moveToMisrecordings res.rejection_reason,
           .markRejected v.video_id res.rejection_reason,
           .updateStatus v.video_id "Rejected" res.rejection_reason] ++
          (if isLast = false then [.sleepDelay API_CALL_DELAY_SECONDS] else [])
        else
          [.analyzeCall v.video_id, .saveMarkdown v.video_id,
           .appendRow v.append_ok] ++
          (if v.append_ok then
            [.markProcessed v.video_id, .updateStatus v.video_id "Analyzed" ""]
           else []) ++
          (if isLast = false then [.sleepDelay API_CALL_DELAY_SECONDS] else [])
    else
      .appendRow v.append_ok ::
        (if v.append_ok then
          [.markProcessed v.video_id, .updateStatus v.video_id "Analyzed" ""]
         else [])

/-- The orchestrator loop over `to_process`: `i < len(to_process)` holds
for every video but the last. -/
def runVideos (dryRun metadataOnly : Bool) : List VideoItem → List Effect
  | [] => []
  | [v] => processVideo dryRun metadataOnly true v
  | v :: w :: rest =>
    processVideo dryRun metadataOnly false v ++
      runVideos dryRun metadataOnly (w :: rest)

/-- Stages 1-5 of `run_pipeline`: dedup filter against the union of the
processed and rejected ledgers, the optional limit, then the loop. -/
def runPipelineTrace (dryRun metadataOnly : Bool) (handled : List String)
    (limit : Nat) (videos : List VideoItem) : List Effect :=
  let to_process := videos.filter (fun v => !(handled.contains v.video_id))
  let to_process := if 0 < limit then to_process.take limit else to_process
  runVideos dryRun metadataOnly to_process

/-- Strict ordering of two effects in a trace: `a` occurs and `b` occurs
after it. -/
def precedes (a b : Effect) (l : List Effect) : Prop :=
  ∃ l₁ l₂, l = l₁ ++ a :: l₂ ∧ b ∈ l₂

/-! ## Shared gate predicates -/

/-- The first gate condition: trimmed primary app empty or an unknown
sentinel (`gemini_analyzer.py` line 522). -/
def appMissing (s : Structured) : Prop :=
  pyStrip s.primary_app = "" ∨ pyStrip s.primary_app = "Unknown" ∨
    pyStrip s.primary_app = "N/A" ∨ pyStrip s.primary_app = "None"

instance (s : Structured) : Decidable (appMissing s) := by
  unfold appMissing; infer_instance

/-- The fourth gate condition: trimmed description falsy or shorter than
20 characters (`gemini_analyzer.py` line 531). -/
def descMissing (s : Structured) : Prop :=
  pyStrip s.workflow_description = "" ∨
    (pyStrip s.workflow_description).length < 20

instance (s : Structured) : Decidable (descMissing s) := by
  unfold descMissing; infer_instance

/-- The quality-gate input named by the C3 claim. -/
def alleFailInput : Structured :=
  { empty_structured with
    primary_app := "Unknown", sop_step_count := 0,
    automation_score := 0, workflow_description := "" }

/-! ## Fuel measures and code-unit views used by the parser/serializer
correspondence -/

mutual

/-- Fuel needed by `parseValue` to parse the serialization of a value. -/
def sizeValue : JVal → Nat
  | .null => 1
  | .boolv _ => 1
  | .num _ _ => 1
  | .str _ => 1
  | .arr l => 1 + sizeItems l
  | .obj l => 1 + sizeFields l

/-- Fuel needed by `parseItems` for an array body. -/
def sizeItems : JList → Nat
  | .nil => 0
  | .cons v tl => 1 + sizeValue v + sizeItems tl

/-- Fuel needed by `parseFields` for an object body. -/
def sizeFields : JObj → Nat
  | .nil => 0
  | .cons _ v tl => 1 + sizeValue v + sizeFields tl

end

/-- The UTF-16-style code units `json.dumps` emits for one character. -/
def charUnits (c : Char) : List Nat :=
  if c.toNat < 65536 then [c.toNat]
  else [55296 + (c.toNat - 65536) / 1024, 56320 + (c.toNat - 65536) % 1024]

/-- Code units of a whole string. -/
def unitsOf : List Char → List Nat
  | [] => []
  | c :: cs => charUnits c ++ unitsOf cs

/-- Characters that could extend a JSON number token. -/
def numCont (c : Char) : Bool :=
  c.isDigit || c = '.' || c = 'e' || c = 'E' || c = '+' || c = '-'

/-- The input following a serialized value never starts with a character
that could extend a number token. -/
def nextOk (cs : List Char) : Prop :=
  match cs with
  | [] => True
  | c :: _ => numCont c = false

/-- The C4 scenario: the first three attempts raise a rate-limit error,
the fourth succeeds. -/
def rateLimitThenSuccess : Nat → CallOutcome := fun i =>
  if i ≤ 3 then .exc "429 RESOURCE_EXHAUSTED: Quota exceeded for requests"
  else .ok "analysis text"

/-- A variant of the scenario that differs only at attempt index 6, which
the retry loop can never reach. -/
def rateLimitThenSuccessAlt : Nat → CallOutcome := fun i =>
  if i = 6 then .exc "unrelated" else rateLimitThenSuccess i

/-- C3: the quality gate evaluates its four checks in the fixed order
app → step count → score → description, reporting the first violated one:
the all-failing input `{primary_app := "Unknown", sop_step_count := 0,
automation_score := 0, workflow_description := ""}` is rejected as
"No application detected" (not a later check's message); in general a
missing app always yields that reason, a present app with zero steps
yields "No workflow steps detected", then the low-score message, then the
short-description message; an input passing all four checks is useful
with an empty reason. -/
theorem c3_quality_gate_ordering :
    check_analysis_quality alleFailInput = (false, "No application detected")
  ∧ (∀ s : Structured, appMissing s →
      check_analysis_quality s = (false, "No application detected"))
  ∧ (∀ s : Structured, ¬ appMissing s → s.sop_step_count = 0 →
      check_analysis_quality s = (false, "No workflow steps detected"))
  ∧ (∀ s : Structured, ¬ appMissing s → s.sop_step_count ≠ 0 →
      s.automation_score < mkRat 3 10 →
      check_analysis_quality s =
        (false, "Very low automation potential (score: " ++
          toString s.automation_score ++ ")"))
  ∧ (∀ s : Structured, ¬ appMissing s → s.sop_step_count ≠ 0 →
      ¬ s.automation_score < mkRat 3 10 → descMissing s →
      check_analysis_quality s = (false, "No meaningful workflow description"))
  ∧ (∀ s : Structured, ¬ appMissing s → s.sop_step_count ≠ 0 →
      ¬ s.automation_score < mkRat 3 10 → ¬ descMissing s →
      check_analysis_quality s = (true, "")) := by
  refine ⟨by decide, ?_, ?_, ?_, ?_, ?_⟩
  · intro s h
    unfold appMissing at h
    simp only [check_analysis_quality]
    rw [if_pos h]
  · intro s h h0
    unfold appMissing at h
    simp only [check_analysis_quality]
    rw [if_neg h, if_pos h0]
  · intro s h h0 hsc
    unfold appMissing at h
    simp only [check_analysis_quality]
    rw [if_neg h, if_neg h0, if_pos hsc]
  · intro s h h0 hsc hd
    unfold appMissing at h
    unfold descMissing at hd
    simp only [check_analysis_quality]
    rw [if_neg h, if_neg h0, if_neg hsc, if_pos hd]
  · intro s h h0 hsc hd
    unfold appMissing at h
    unfold descMissing at hd
    simp only [check_analysis_quality]
    rw [if_neg h, if_neg h0, if_neg hsc, if_neg hd]

/-- Witness for `c3_quality_gate_ordering`: the spec's all-passing example
(`primary_app = "Excel"`, 5 steps, score 0.6, a 31-character description)
is accepted with an empty reason. -/
theorem c3_quality_gate_ordering_witness :
    check_analysis_quality
      { empty_structured with
        primary_app := "Excel", sop_step_count := 5,
        automation_score := mkRat 6 10,
        workflow_description := "A 25-character description here" } =
      (true, "") :=
  c3_quality_gate_ordering.2.2.2.2.2 _ (by decide) (by decide) (by decide)
    (by decide)

/-- C8: the stored `automation_score` is always
`_clamp_float(raw, 0.0, 1.0)` of the raw field value, hence always in
[0, 1]; raw values below 0 clamp to 0, above 1 clamp to 1, numeric
strings convert and then clamp, and non-numeric values fall back to 0. -/
theorem c8_automation_score_clamped :
    (∀ data : JObj, (structuredOfData data).automation_score =
        clamp_float (objGet data "automation_score".data (.num 0 1)) 0 1)
  ∧ (∀ v : JVal, 0 ≤ clamp_float v 0 1 ∧ clamp_float v 0 1 ≤ 1)
  ∧ (∀ v q, float_of v = some q → q < 0 → clamp_float v 0 1 = 0)
  ∧ (∀ v q, float_of v = some q → 1 < q → clamp_float v 0 1 = 1)
  ∧ (∀ s q, pyFloatOfChars s = some q →
      clamp_float (.str s) 0 1 = max 0 (min 1 q))
  ∧ (∀ v, float_of v = none → clamp_float v 0 1 = 0) := by
  refine ⟨fun _ => rfl, ?_, ?_, ?_, ?_, ?_⟩
  · intro v
    unfold clamp_float
    cases h : float_of v with
    | none => norm_num
    | some q =>
      exact ⟨le_max_left _ _, max_le (by norm_num) (min_le_left _ _)⟩
  · intro v q h hq
    simp only [clamp_float, h]
    rw [min_eq_right (hq.trans zero_lt_one).le, max_eq_left hq.le]
  · intro v q h hq
    simp only [clamp_float, h]
    rw [min_eq_left hq.le, max_eq_right zero_le_one]
  · intro s q h
    rw [clamp_float]
    show (match float_of (.str s) with
      | some v => max 0 (min 1 v)
      | none => 0) = max 0 (min 1 q)
    rw [show float_of (.str s) = pyFloatOfChars s from rfl, h]
  · intro v h
    rw [clamp_float, h]

/-- Witness for `c8_automation_score_clamped`: a negative raw score
clamps to 0, a score above 1 clamps to 1, the numeric string "0.45"
converts then clamps, and `null` (a `TypeError` in `float()`) falls back
to 0. -/
theorem c8_automation_score_clamped_witness :
    clamp_float (.num (-5) 1) 0 1 = 0 ∧ clamp_float (.num 17 1) 0 1 = 1 ∧
    clamp_float (.str "0.45".data) 0 1 = max 0 (min 1 (mkRat 45 100)) ∧
    clamp_float .null 0 1 = 0 :=
  ⟨c8_automation_score_clamped.2.2.1 _ (mkRat (-5) 10) (by decide) (by decide),
   c8_automation_score_clamped.2.2.2.1 _ (mkRat 17 10) (by decide) (by decide),
   c8_automation_score_clamped.2.2.2.2.1 _ _ (by decide),
   c8_automation_score_clamped.2.2.2.2.2 _ (by decide)⟩

/-- C10: the stored `sop_step_count` is `_safe_int(raw)` of the raw field
value: `int(float(raw))` (truncation toward zero, negatives preserved),
defaulting to 0 exactly when the conversion fails; and since the gate's
step-count check compares against zero only, any nonzero (in particular
negative) count behaves like any other nonzero count there, so such a
response reaches the later checks and can be accepted. -/
theorem c10_sop_step_count :
    (∀ data : JObj, (structuredOfData data).sop_step_count =
        safe_int (objGet data "sop_step_count".data (.num 0 0)))
  ∧ (∀ v q, float_of v = some q → safe_int v = ratTrunc q)
  ∧ (∀ v, float_of v = none → safe_int v = 0)
  ∧ (∀ n : Int, safe_int (.num n 0) = n)
  ∧ (∀ s : Structured, s.sop_step_count ≠ 0 →
      check_analysis_quality s =
        check_analysis_quality { s with sop_step_count := 1 })
  ∧ (∀ s : Structured, ¬ appMissing s → s.sop_step_count ≠ 0 →
      ¬ s.automation_score < mkRat 3 10 → ¬ descMissing s →
      check_analysis_quality s = (true, "")) := by
  refine ⟨fun _ => rfl, ?_, ?_, ?_, ?_, ?_⟩
  · intro v q h
    rw [safe_int, h]
  · intro v h
    rw [safe_int, h]
  · intro n
    have h : float_of (.num n 0) = some (mkRat n 1) := rfl
    rw [safe_int, h]
    have hn : (mkRat n 1 : Rat) = (n : Rat) := by
      rw [Rat.mkRat_one]
    simp only [safe_int, h, hn, ratTrunc]
    split_ifs with h0
    · exact_mod_cast Int.floor_intCast n
    · exact_mod_cast Int.ceil_intCast n
  · intro s h
    dsimp only [check_analysis_quality]
    rw [if_neg (Int.one_ne_zero), if_neg h]
  · intro s h h0 hsc hd
    unfold appMissing at h
    unfold descMissing at hd
    simp only [check_analysis_quality]
    rw [if_neg h, if_neg h0, if_neg hsc, if_neg hd]

/-- Witness for `c10_sop_step_count`: `-3` is preserved by the coercion,
the numeric string "4.9" truncates via `int(float(...))`, `null` falls
back to 0, and a structured result with a negative step count but a
present app, a high score and a long description is accepted. -/
theorem c10_sop_step_count_witness :
    safe_int (.num (-3) 0) = -3 ∧
    safe_int (.str "4.9".data) = ratTrunc (mkRat 49 10) ∧
    safe_int .null = 0 ∧
    check_analysis_quality
      { empty_structured with
        primary_app := "Excel", sop_step_count := -2,
        automation_score := mkRat 6 10,
        workflow_description := "A 25-character description here" } =
      (true, "") :=
  ⟨c10_sop_step_count.2.2.2.1 (-3),
   c10_sop_step_count.2.1 _ _ (by decide),
   c10_sop_step_count.2.2.1 _ (by decide),
   c10_sop_step_count.2.2.2.2.2 _ (by decide) (by decide) (by decide)
     (by decide)⟩

/-- The retry loop depends only on the outcomes of the attempts it may
actually perform (indices `attempt ..= attempt + rem - 1`). -/
theorem callGeminiAux_congr (env env' : Nat → CallOutcome) (maxR : Nat) :
    ∀ rem attempt,
      (∀ i, attempt ≤ i → i < attempt + rem → env i = env' i) →
      callGeminiAux env maxR rem attempt =
        callGeminiAux env' maxR rem attempt := by
  intro rem
  induction rem with
  | zero => intro attempt _; rfl
  | succ n ih =>
    intro attempt h
    have h0 : env attempt = env' attempt := h attempt le_rfl (by omega)
    simp only [callGeminiAux, h0]
    rw [ih (attempt + 1) (fun i h1 h2 => h i (by omega) (by omega))]

/-- C4: with max attempts 5 and initial backoff 10s, three consecutive
rate-limited attempts followed by a success return the successful text
after sleeping 10s, 20s and 40s (doubling per rate-limited attempt); and
the call consults at most the first 5 attempt outcomes, i.e. it is
attempted at most 5 times total. -/
theorem c4_retry_backoff :
    call_gemini rateLimitThenSuccess = (some "analysis text", [10, 20, 40])
  ∧ (∀ env env' : Nat → CallOutcome,
      (∀ i, 1 ≤ i → i ≤ 5 → env i = env' i) →
      call_gemini env = call_gemini env') := by
  constructor
  · have hmsg :
        isRateLimitMsg "429 RESOURCE_EXHAUSTED: Quota exceeded for requests" =
          true := by decide
    have ht : ¬ ("analysis text" : String) = "" := by decide
    simp only [call_gemini, MAX_API_RETRIES, callGeminiAux,
      rateLimitThenSuccess]
    norm_num [hmsg, ht, RATE_LIMIT_INITIAL_BACKOFF]
  · intro env env' h
    exact callGeminiAux_congr env env' MAX_API_RETRIES MAX_API_RETRIES 1
      (fun i h1 h2 => h i h1 (by
        have h5 : MAX_API_RETRIES = 5 := rfl
        omega))

/-- Witness for `c4_retry_backoff`: an environment differing only at the
unreachable sixth attempt produces the identical result. -/
theorem c4_retry_backoff_witness :
    call_gemini rateLimitThenSuccess = call_gemini rateLimitThenSuccessAlt :=
  c4_retry_backoff.2 _ _ (fun i _ h2 => by
    simp only [rateLimitThenSuccessAlt]
    rw [if_neg (by omega)])

/-- Sanity check of the hash model against the standard SHA-256 test
vector for `"abc"`. -/
theorem sha256hex_abc :
    sha256hex (utf8Encode "abc") =
      "ba7816bf8f01cfea414140de5dae2223b00361a396177a9cb410ff61f20015ad".data := by
  decide

/-- C1: the recomputed video id is exactly the first 12 characters of the
SHA-256 hex digest of the identity source (the source path when
non-empty, else the MP4 path), and it is a pure function of those two
paths: rows agreeing on both paths get the same id no matter how the
task description or any other field differs. -/
theorem c1_video_id_deterministic :
    (∀ row : SessionRow, rowVideoId row =
      (sha256hex (utf8Encode
        (if row.sourcePath ≠ "" then row.sourcePath else row.mp4Path))).take 12)
  ∧ (∀ r1 r2 : SessionRow, r1.sourcePath = r2.sourcePath →
      r1.mp4Path = r2.mp4Path → rowVideoId r1 = rowVideoId r2) := by
  refine ⟨fun _ => rfl, ?_⟩
  intro r1 r2 h1 h2
  unfold rowVideoId
  rw [h1, h2]

/-- Witness for `c1_video_id_deterministic`: two session rows with the
same paths but different task descriptions and status fields get the
same video id. -/
theorem c1_video_id_deterministic_witness :
    rowVideoId
      { sourcePath := "\\\\SERVER\\SHARE\\workflow\\rcrane_task.webm",
        mp4Path := "C:\\temp\\WorkflowProcessing\\rcrane_task.mp4",
        taskDescription := "invoice entry", username := "rcrane",
        status := "", rejectionReason := "" } =
    rowVideoId
      { sourcePath := "\\\\SERVER\\SHARE\\workflow\\rcrane_task.webm",
        mp4Path := "C:\\temp\\WorkflowProcessing\\rcrane_task.mp4",
        taskDescription := "a totally different task", username := "rcrane",
        status := "Analyzed", rejectionReason := "x" } :=
  c1_video_id_deterministic.2 _ _ rfl rfl

/-- An effect that occurs before another still does so after appending a
suffix to the trace. -/
theorem precedes_append_right {a b : Effect} {l l' : List Effect}
    (h : precedes a b l) : precedes a b (l ++ l') := by
  obtain ⟨l₁, l₂, rfl, hb⟩ := h
  exact ⟨l₁, l₂ ++ l', by simp, by simp [hb]⟩

/-- C2: in every orchestrator iteration, `mark_processed(video_id)` is
emitted only when `append_row` returned `True` for that video's row, and
the `appendRow true` effect strictly precedes the `markProcessed` effect
in the trace; when the append fails the video is never marked processed
in that run. -/
theorem c2_mark_processed_after_append :
    ∀ (dryRun metadataOnly isLast : Bool) (v : VideoItem),
      (Effect.markProcessed v.video_id ∈
          processVideo dryRun metadataOnly isLast v →
        v.append_ok = true ∧
        precedes (.appendRow true) (.markProcessed v.video_id)
          (processVideo dryRun metadataOnly isLast v))
      ∧ (v.append_ok = false →
          Effect.markProcessed v.video_id ∉
            processVideo dryRun metadataOnly isLast v) := by
  intro dr mo il v
  obtain ⟨vid, sp, mp, td, dur, ana, ok⟩ := v
  simp only [processVideo]
  by_cases h1 : (if mp ≠ "" then mp else sp) = ""
  · rw [if_pos h1]
    exact ⟨fun hm => absurd hm (List.not_mem_nil _), fun _ => List.not_mem_nil _⟩
  · rw [if_neg h1]
    by_cases h2 : dr = true
    · rw [if_pos h2]
      exact ⟨fun hm => absurd hm (List.not_mem_nil _), fun _ => List.not_mem_nil _⟩
    · rw [if_neg h2]
      by_cases h3 : 0 < dur ∧ dur < MIN_VIDEO_DURATION_SEC
      · rw [if_pos h3]
        exact ⟨fun hm => by simp at hm, fun _ => by simp⟩
      · rw [if_neg h3]
        by_cases h4 : 0 < dur ∧ MAX_VIDEO_DURATION_SEC < dur
        · rw [if_pos h4]
          exact ⟨fun hm => by simp at hm, fun _ => by simp⟩
        · rw [if_neg h4]
          by_cases h5 : mo = false
          · rw [if_pos h5]
            cases ana with
            | none =>
              exact ⟨fun hm => by simp at hm, fun _ => by simp⟩
            | some res =>
              dsimp only
              by_cases hu : res.is_useful = false
              · rw [if_pos hu]
                cases il
                · exact ⟨fun hm => by simp at hm, fun _ => by simp⟩
                · exact ⟨fun hm => by simp at hm, fun _ => by simp⟩
              · rw [if_neg hu]
                cases ok with
                | false =>
                  refine ⟨fun hm => ?_, fun _ => ?_⟩
                  · exfalso; revert hm; cases il <;> simp
                  · cases il <;> simp
                | true =>
                  refine ⟨fun _ => ⟨rfl, ?_⟩, fun h => nomatch h⟩
                  have hc : precedes (.appendRow true) (.markProcessed vid)
                      ([.analyzeCall vid, .saveMarkdown vid, .appendRow true] ++
                        [.markProcessed vid, .updateStatus vid "Analyzed" ""]) :=
                    ⟨[.analyzeCall vid, .saveMarkdown vid],
                     [.markProcessed vid, .updateStatus vid "Analyzed" ""],
                     rfl, by simp⟩
                  simpa using precedes_append_right hc
          · rw [if_neg h5]
            cases ok with
            | false =>
              refine ⟨fun hm => ?_, fun _ => ?_⟩
              · exfalso; revert hm; simp
              · simp
            | true =>
              refine ⟨fun _ => ⟨rfl, ?_⟩, fun h => nomatch h⟩
              exact ⟨[], [.markProcessed vid, .updateStatus vid "Analyzed" ""],
                by simp, by simp⟩

/-- Witness for `c2_mark_processed_after_append`: a video whose row
append fails is not marked processed in that run. -/
theorem c2_mark_processed_after_append_witness :
    Effect.markProcessed "vid1" ∉ processVideo false false true
      { video_id := "vid1", source_path := "", mp4_path := "C:/x.mp4",
        task_description := "t", duration := 30,
        analysis := some { is_useful := true, rejection_reason := "" },
        append_ok := false } :=
  (c2_mark_processed_after_append false false true _).2 rfl

/-- C5: when the probed duration is known (positive) and outside
[5, 3600], the orchestrator quarantines the video — moves its artifacts
and marks it rejected with a descriptive reason, updating the sessions
manifest — and never invokes the analysis engine for it; a probe-failed
duration of −1 skips the bounds check instead of failing it, so (outside
metadata-only mode) the analysis engine is invoked. -/
theorem c5_duration_bounds_quarantine :
    (∀ (metadataOnly isLast : Bool) (v : VideoItem),
      (if v.mp4_path ≠ "" then v.mp4_path else v.source_path) ≠ "" →
      0 < v.duration →
      (v.duration < MIN_VIDEO_DURATION_SEC ∨
        MAX_VIDEO_DURATION_SEC < v.duration) →
      (∃ reason, processVideo false metadataOnly isLast v =
        [.moveToMisrecordings reason, .markRejected v.video_id reason,
         .updateStatus v.video_id "Rejected" reason]) ∧
      Effect.analyzeCall v.video_id ∉ processVideo false metadataOnly isLast v)
  ∧ (∀ (isLast : Bool) (v : VideoItem),
      (if v.mp4_path ≠ "" then v.mp4_path else v.source_path) ≠ "" →
      v.duration = -1 →
      Effect.analyzeCall v.video_id ∈ processVideo false false isLast v) := by
  constructor
  · intro mo il v hpath h0 hbound
    obtain ⟨vid, sp, mp, td, dur, ana, ok⟩ := v
    simp only [processVideo] at *
    rw [if_neg hpath, if_neg (by simp : ¬ (false = true))]
    rcases hbound with hlt | hgt
    · rw [if_pos ⟨h0, hlt⟩]
      exact ⟨⟨tooShortReason dur, rfl⟩, by simp⟩
    · have hn5 : ¬ (0 < dur ∧ dur < MIN_VIDEO_DURATION_SEC) := by
        rintro ⟨-, hc⟩
        rw [MIN_VIDEO_DURATION_SEC] at hc
        rw [MAX_VIDEO_DURATION_SEC] at hgt
        linarith
      rw [if_neg hn5, if_pos ⟨h0, hgt⟩]
      exact ⟨⟨tooLongReason dur, rfl⟩, by simp⟩
  · intro il v hpath hneg
    obtain ⟨vid, sp, mp, td, dur, ana, ok⟩ := v
    simp only at hpath hneg
    subst hneg
    simp only [processVideo]
    rw [if_neg hpath, if_neg (by simp : ¬ (false = true)),
      if_neg (by rintro ⟨hc, -⟩; norm_num at hc),
      if_neg (by rintro ⟨hc, -⟩; norm_num at hc),
      if_pos trivial]
    cases ana with
    | none => simp
    | some res =>
      dsimp only
      by_cases hu : res.is_useful = false
      · rw [if_pos hu]; simp
      · rw [if_neg hu]; simp

/-- Witness for `c5_duration_bounds_quarantine`: a 3-second video is
quarantined with zero analysis-engine calls, and a video with the −1
probe sentinel does reach the analysis engine. -/
theorem c5_duration_bounds_quarantine_witness :
    ((∃ reason, processVideo false false true
        { video_id := "vshort", source_path := "", mp4_path := "C:/a.mp4",
          task_description := "t", duration := 3, analysis := none,
          append_ok := true } =
        [.moveToMisrecordings reason, .markRejected "vshort" reason,
         .updateStatus "vshort" "Rejected" reason]) ∧
      Effect.analyzeCall "vshort" ∉ processVideo false false true
        { video_id := "vshort", source_path := "", mp4_path := "C:/a.mp4",
          task_description := "t", duration := 3, analysis := none,
          append_ok := true })
  ∧ Effect.analyzeCall "vprobe" ∈ processVideo false false true
      { video_id := "vprobe", source_path := "", mp4_path := "C:/b.mp4",
        task_description := "t", duration := -1, analysis := none,
        append_ok := true } :=
  ⟨c5_duration_bounds_quarantine.1 false true _ (by decide) (by decide)
      (Or.inl (by decide)),
   c5_duration_bounds_quarantine.2 true _ (by decide) (by decide)⟩

/-- Counterexample to C7 as stated: a video quarantined by the
quality-gate rejection path (`run_pipeline.py` 216-221) does receive the
inter-video delay sleep before the next video. -/
theorem c7_counterexample :
    Effect.sleepDelay API_CALL_DELAY_SECONDS ∈ processVideo false false false
      { video_id := "vrej", source_path := "", mp4_path := "C:/c.mp4",
        task_description := "t", duration := 30,
        analysis := some { is_useful := false, rejection_reason := "No application detected" },
        append_ok := true } := by decide

/-- C7 (amended): the inter-video delay occurs in an iteration exactly
when the analysis engine was invoked and returned a result — whether the
video was then persisted or quality-gate quarantined — and more videos
remain (not dry-run, not metadata-only, duration in bounds); skipped
videos never even enter the loop: the run trace is unchanged when the
already-handled videos are dropped from the input. -/
theorem c7_sleep_only_after_analysis :
    (∀ (dryRun metadataOnly isLast : Bool) (v : VideoItem) (d : Rat),
      Effect.sleepDelay d ∈ processVideo dryRun metadataOnly isLast v ↔
        (dryRun = false ∧ metadataOnly = false ∧ isLast = false ∧
          (if v.mp4_path ≠ "" then v.mp4_path else v.source_path) ≠ "" ∧
          ¬(0 < v.duration ∧ v.duration < MIN_VIDEO_DURATION_SEC) ∧
          ¬(0 < v.duration ∧ MAX_VIDEO_DURATION_SEC < v.duration) ∧
          v.analysis ≠ none ∧ d = API_CALL_DELAY_SECONDS))
  ∧ (∀ (dryRun metadataOnly : Bool) (handled : List String) (limit : Nat)
      (videos : List VideoItem),
      runPipelineTrace dryRun metadataOnly handled limit videos =
        runPipelineTrace dryRun metadataOnly handled limit
          (videos.filter (fun v => !(handled.contains v.video_id)))) := by
  constructor
  · intro dr mo il v d
    obtain ⟨vid, sp, mp, td, dur, ana, ok⟩ := v
    simp only [processVideo]
    simp only [ne_eq, ite_not]
    by_cases h1 : (if mp = "" then sp else mp) = ""
    · rw [if_pos h1]; simp [h1]
    · rw [if_neg h1]
      cases dr with
      | true => simp
      | false =>
        rw [if_neg (by simp : ¬ (false = true))]
        by_cases h3 : 0 < dur ∧ dur < MIN_VIDEO_DURATION_SEC
        · rw [if_pos h3]; simp [h1, h3]
        · rw [if_neg h3]
          by_cases h4 : 0 < dur ∧ MAX_VIDEO_DURATION_SEC < dur
          · rw [if_pos h4]; simp [h1, h3, h4]
          · rw [if_neg h4]
            cases mo with
            | true =>
              rw [if_neg (by simp : ¬ (true = false))]
              cases ok <;> simp
            | false =>
              rw [if_pos rfl]
              cases ana with
              | none => simp [h1, h3, h4]
              | some res =>
                dsimp only
                by_cases hu : res.is_useful = false
                · rw [if_pos hu]
                  cases il <;> simp [h1, h3, h4]
                · rw [if_neg hu]
                  cases il <;> cases ok <;> simp [h1, h3, h4]
  · intro dr mo handled limit videos
    unfold runPipelineTrace
    rw [List.filter_filter]
    simp [Bool.and_self]

/-- Counterexample to C6 as stated: when polling reports the `FAILED`
state, a remote handle was obtained by uploading, yet no delete call is
ever issued — `_upload_video` raises without cleaning up and the
`finally` block skips the delete because the local `video_file` variable
was never assigned. -/
theorem c6_counterexample :
    AEffect.upload ∈ (analyze_video
      { fileExists := true, states := fun _ => .failed,
        pass1 := some "md", pass2 := some "x" }).1 ∧
    AEffect.deleteFile ∉ (analyze_video
      { fileExists := true, states := fun _ => .failed,
        pass1 := some "md", pass2 := some "x" }).1 := by decide

/-- The upload poll loop issues its best-effort delete exactly on the
timeout exit. -/
theorem uploadLoop_delete_iff (states : Nat → UpState) :
    ∀ fuel k, AEffect.deleteFile ∈ (uploadLoopAux states fuel k).1 ↔
      (uploadLoopAux states fuel k).2 = .timedOut := by
  intro fuel
  induction fuel with
  | zero =>
    intro k
    cases h : states k <;> simp [uploadLoopAux, h]
  | succ n ih =>
    intro k
    cases h : states k <;> simp [uploadLoopAux, h, ih]

/-- C6 (amended): whenever the video was uploaded, the remote delete call
is issued before `analyze_video` returns on every exit path — normal
return, quality rejection, Pass-1 failure, and poll timeout — except the
one where polling reports the `FAILED` processing state, in which case no
delete is ever issued and the remote file leaks. -/
theorem c6_cleanup_on_exit :
    ∀ env : AnalyzeEnv, env.fileExists = true →
      AEffect.upload ∈ (analyze_video env).1 ∧
      (AEffect.deleteFile ∈ (analyze_video env).1 ↔
        (upload_video env.states).2 ≠ .failedState) := by
  intro env hf
  obtain ⟨fe, states, p1, p2⟩ := env
  simp only at hf
  subst hf
  simp only [analyze_video, upload_video]
  rw [if_neg (by simp)]
  cases h2 : (uploadLoopAux states
      (VIDEO_UPLOAD_TIMEOUT / VIDEO_UPLOAD_POLL_INTERVAL) 0).2 with
  | ok =>
    cases p1 with
    | none => simp [h2, uploadLoop_delete_iff]
    | some md =>
      by_cases hmd : md = ""
      · simp [h2, hmd]
      · simp [h2, hmd]
  | failedState =>
    have hd := uploadLoop_delete_iff states
      (VIDEO_UPLOAD_TIMEOUT / VIDEO_UPLOAD_POLL_INTERVAL) 0
    rw [h2] at hd
    simp [h2, hd]
  | timedOut =>
    have hd := uploadLoop_delete_iff states
      (VIDEO_UPLOAD_TIMEOUT / VIDEO_UPLOAD_POLL_INTERVAL) 0
    rw [h2] at hd
    simp [h2, hd]

/-- Witness for `c6_cleanup_on_exit`: a successfully processed upload has
its remote handle deleted before the call returns. -/
theorem c6_cleanup_on_exit_witness :
    AEffect.deleteFile ∈ (analyze_video
      { fileExists := true, states := fun _ => .active,
        pass1 := some "md", pass2 := some "j" }).1 :=
  (c6_cleanup_on_exit _ rfl).2.mpr (by decide)


theorem char_toNat_ofNat {n : Nat} (h : n < 55296) :
    (Char.ofNat n).toNat = n := by
  unfold Char.ofNat
  rw [dif_pos (Or.inl (by omega : n < 0xd800))]
  rfl

theorem char_not_surrogate (c : Char) :
    c.toNat < 55296 ∨ (57343 < c.toNat ∧ c.toNat < 1114112) := by
  have := c.valid
  unfold Nat.isValidChar at this
  exact this

theorem expectChars_append (p rest : List Char) :
    expectChars p (p ++ rest) = some rest := by
  induction p with
  | nil => rfl
  | cons c cs ih => simp [expectChars, ih]

theorem skipWs_cons_of {c : Char} (h : isWsChar c = false) (cs : List Char) :
    skipWs (c :: cs) = c :: cs := by
  simp [skipWs, h]

theorem parseValue_ws {c : Char} (h : isWsChar c = true) :
    ∀ fuel cs, parseValue fuel (c :: cs) = parseValue fuel cs := by
  intro fuel cs
  cases fuel with
  | zero => rfl
  | succ n => simp [parseValue, skipWs, h]

theorem parseItems_ws {c : Char} (h : isWsChar c = true) :
    ∀ fuel cs, parseItems fuel (c :: cs) = parseItems fuel cs := by
  intro fuel cs
  cases fuel with
  | zero => rfl
  | succ n => simp only [parseItems, parseValue_ws h]

theorem parseFields_ws {c : Char} (h : isWsChar c = true) :
    ∀ fuel cs, parseFields fuel (c :: cs) = parseFields fuel cs := by
  intro fuel cs
  cases fuel with
  | zero => rfl
  | succ n => simp [parseFields, skipWs, h]

theorem natToDigitsAux_congr : ∀ f₁ f₂ n, n < f₁ → n < f₂ →
    natToDigitsAux f₁ n = natToDigitsAux f₂ n := by
  intro f₁ f₂ n
  induction n using Nat.strongRecOn generalizing f₁ f₂ with
  | _ n ih =>
    intro h₁ h₂
    cases f₁ with
    | zero => omega
    | succ g₁ =>
      cases f₂ with
      | zero => omega
      | succ g₂ =>
        simp only [natToDigitsAux]
        by_cases h0 : n = 0
        · simp [h0]
        · rw [if_neg h0, if_neg h0,
            ih (n / 10) (Nat.div_lt_self (Nat.pos_of_ne_zero h0) (by norm_num))
              g₁ g₂ (by omega) (by omega)]

theorem digitsToNat_acc (cs : List Char) : ∀ a,
    cs.foldl (fun x c => 10 * x + (c.toNat - 48)) a =
      a * 10 ^ cs.length + digitsToNat cs := by
  induction cs with
  | nil => intro a; simp [digitsToNat]
  | cons c cs ih =>
    intro a
    have hd : digitsToNat (c :: cs) =
        (c.toNat - 48) * 10 ^ cs.length + digitsToNat cs := by
      simp only [digitsToNat, List.foldl_cons]
      rw [ih]
      norm_num [digitsToNat]
    rw [List.foldl_cons, ih, hd]
    simp [List.length_cons]
    ring
  
theorem digitsToNat_append (x y : List Char) :
    digitsToNat (x ++ y) = digitsToNat x * 10 ^ y.length + digitsToNat y := by
  unfold digitsToNat
  rw [List.foldl_append]
  exact digitsToNat_acc y _

theorem digitsToNat_aux_eval : ∀ fuel n, n < fuel →
    digitsToNat (natToDigitsAux fuel n) = n := by
  intro fuel
  induction fuel with
  | zero => intro n h; omega
  | succ f ih =>
    intro n h
    by_cases h0 : n = 0
    · subst h0; simp [natToDigitsAux, digitsToNat]
    · rw [natToDigitsAux, if_neg h0, digitsToNat_append]
      have hd : n / 10 < f := by
        have := Nat.div_lt_self (Nat.pos_of_ne_zero h0) (by norm_num : (1:Nat) < 10)
        omega
      rw [ih _ hd]
      have hc : (Char.ofNat (48 + n % 10)).toNat = 48 + n % 10 :=
        char_toNat_ofNat (by omega)
      simp [digitsToNat, hc]
      omega

theorem digitsToNat_natToDigits (n : Nat) :
    digitsToNat (natToDigits n) = n := by
  unfold natToDigits
  by_cases h0 : n = 0
  · subst h0; simp [digitsToNat]
  · rw [if_neg h0]
    exact digitsToNat_aux_eval (n + 1) n (by omega)


theorem isDigit_ofNat_48_add {k : Nat} (hk : k < 10) :
    (Char.ofNat (48 + k)).isDigit = true := by
  interval_cases k <;> decide

theorem natToDigitsAux_all_digits : ∀ fuel n c,
    c ∈ natToDigitsAux fuel n → c.isDigit = true := by
  intro fuel
  induction fuel with
  | zero => intro n c h; simp [natToDigitsAux] at h
  | succ f ih =>
    intro n c h
    rw [natToDigitsAux] at h
    by_cases h0 : n = 0
    · simp [h0] at h
    · rw [if_neg h0] at h
      rcases List.mem_append.mp h with h1 | h2
      · exact ih _ _ h1
      · simp at h2
        subst h2
        exact isDigit_ofNat_48_add (Nat.mod_lt _ (by norm_num))

theorem natToDigits_all_digits (n : Nat) :
    ∀ c ∈ natToDigits n, c.isDigit = true := by
  intro c h
  unfold natToDigits at h
  by_cases h0 : n = 0
  · rw [if_pos h0] at h
    simp at h
    subst h
    decide
  · rw [if_neg h0] at h
    exact natToDigitsAux_all_digits _ _ _ h

theorem natToDigits_ne_nil (n : Nat) : natToDigits n ≠ [] := by
  unfold natToDigits
  by_cases h0 : n = 0
  · simp [h0]
  · rw [if_neg h0, natToDigitsAux, if_neg h0]
    simp

theorem natToDigitsAux_length : ∀ fuel n k, n < 10 ^ k →
    (natToDigitsAux fuel n).length ≤ k := by
  intro fuel
  induction fuel with
  | zero => intro n k _; simp [natToDigitsAux]
  | succ f ih =>
    intro n k h
    rw [natToDigitsAux]
    by_cases h0 : n = 0
    · simp [h0]
    · rw [if_neg h0]
      cases k with
      | zero =>
        simp at h
        omega
      | succ j =>
        have hd : n / 10 < 10 ^ j := by
          rw [Nat.div_lt_iff_lt_mul (by norm_num : 0 < 10)]
          calc n < 10 ^ (j + 1) := h
          _ = 10 ^ j * 10 := by ring
        have := ih (n / 10) j hd
        simp [List.length_append]
        omega

theorem natToDigits_length_le {n k : Nat} (h : n < 10 ^ k) (hk : 0 < k) :
    (natToDigits n).length ≤ k := by
  unfold natToDigits
  by_cases h0 : n = 0
  · simp [h0]; omega
  · rw [if_neg h0]
    exact natToDigitsAux_length _ _ _ h

theorem spanDigits_append : ∀ ds rest, (∀ c ∈ ds, c.isDigit = true) →
    (∀ c, rest.head? = some c → c.isDigit = false) →
    spanDigits (ds ++ rest) = (ds, rest) := by
  intro ds
  induction ds with
  | nil =>
    intro rest _ hr
    cases rest with
    | nil => rfl
    | cons c cs => simp [spanDigits, hr c rfl]
  | cons d ds ih =>
    intro rest h hr
    have hd : d.isDigit = true := h d (by simp)
    simp [spanDigits, hd, ih rest (fun c hc => h c (by simp [hc])) hr]

theorem digitsToNat_replicate_zero (k : Nat) (d : List Char) :
    digitsToNat (List.replicate k '0' ++ d) = digitsToNat d := by
  rw [digitsToNat_append]
  have hz : digitsToNat (List.replicate k '0') = 0 := by
    induction k with
    | zero => rfl
    | succ j ih =>
      have : List.replicate (j + 1) '0' = '0' :: List.replicate j '0' := rfl
      rw [this]
      unfold digitsToNat at ih ⊢
      simpa using ih
  simp [hz]


theorem nextOk_facts {rest : List Char} (hrest : nextOk rest) :
    (∀ c, rest.head? = some c → c.isDigit = false) ∧
    rest.head? ≠ some '.' ∧ rest.head? ≠ some 'e' ∧ rest.head? ≠ some 'E' := by
  cases rest with
  | nil => simp
  | cons c cs =>
    simp only [nextOk, numCont, Bool.or_eq_false_iff, decide_eq_false_iff_not]
      at hrest
    obtain ⟨⟨⟨⟨⟨h1, h2⟩, h3⟩, h4⟩, h5⟩, h6⟩ := hrest
    refine ⟨?_, ?_, ?_, ?_⟩
    · intro d hd
      simp at hd
      subst hd
      exact h1
    · simp
      intro hc
      exact absurd hc h2
    · simp
      intro hc
      exact absurd hc h3
    · simp
      intro hc
      exact absurd hc h4

theorem parseNumber_frac_core (m : Int) (e : Nat) (F rest : List Char)
    (hepos : 0 < e)
    (hFdig : ∀ c ∈ F, c.isDigit = true)
    (hFlen : F.length = e)
    (hFval : digitsToNat F = m.natAbs % 10 ^ e)
    (hrest : nextOk rest) :
    parseNumber ((if m < 0 then ['-'] else []) ++
      (natToDigits (m.natAbs / 10 ^ e) ++ '.' :: (F ++ rest))) =
      some (.num m e, rest) := by
  obtain ⟨hrd, hrdot, hre, hrE⟩ := nextOk_facts hrest
  have href : (rest.head? = some 'e') = False := eq_false hre
  have hrEf : (rest.head? = some 'E') = False := eq_false hrE
  have hdT : (('.' :: (F ++ rest)).head? = some '.') = True := by simp
  have hrd1 : ∀ c, ('.' :: (F ++ rest)).head? = some c → c.isDigit = false := by
    intro c hc
    simp at hc
    subst hc
    decide
  have hspan1 := spanDigits_append (natToDigits (m.natAbs / 10 ^ e))
    ('.' :: (F ++ rest)) (natToDigits_all_digits _) hrd1
  have hspan2 := spanDigits_append F rest hFdig hrd
  have hnil : (natToDigits (m.natAbs / 10 ^ e) = []) = False :=
    eq_false (natToDigits_ne_nil _)
  have hFnil : (F = []) = False := by
    apply eq_false
    intro hc
    rw [hc] at hFlen
    simp at hFlen
    omega
  have hmk : ∀ b : Bool, mkNum b (natToDigits (m.natAbs / 10 ^ e)) F 0 =
      .num ((if b then -1 else 1) * (m.natAbs : Int)) e := by
    intro b
    unfold mkNum
    rw [if_neg (by rw [hFlen]; omega)]
    simp only [digitsToNat_append, digitsToNat_natToDigits, hFval, hFlen,
      sub_zero, Int.toNat_natCast, JVal.num.injEq, and_true]
    congr 1
    exact_mod_cast congrArg Nat.cast (Nat.div_add_mod' m.natAbs (10 ^ e))
  by_cases hm : m < 0
  · rw [if_pos hm]
    have hshape : ['-'] ++ (natToDigits (m.natAbs / 10 ^ e) ++
        '.' :: (F ++ rest)) =
        '-' :: (natToDigits (m.natAbs / 10 ^ e) ++ '.' :: (F ++ rest)) := rfl
    rw [hshape]
    simp only [parseNumber, List.head?_cons, List.tail_cons, hdT, hspan1,
      hspan2, Option.some.injEq, href, hrEf, hnil, hFnil, reduceCtorEq,
      if_true, if_false, and_false, false_and, and_true, true_and,
      or_self, ite_false, ite_true, false_or, or_false]
    refine Prod.ext ?_ rfl
    rw [hmk true]
    simp only [if_true, ite_true, JVal.num.injEq, and_true]
    omega
  · rw [if_neg hm]
    simp only [List.nil_append]
    obtain ⟨d, ds', hds⟩ :=
      List.exists_cons_of_ne_nil (natToDigits_ne_nil (m.natAbs / 10 ^ e))
    have hddig : d.isDigit = true := by
      apply natToDigits_all_digits (m.natAbs / 10 ^ e)
      rw [hds]; simp
    have hdm : (d = '-') = False := by
      apply eq_false
      intro hc
      subst hc
      simp at hddig
    have hhead : (natToDigits (m.natAbs / 10 ^ e) ++
        '.' :: (F ++ rest)).head? = some d := by
      rw [hds]; rfl
    simp only [parseNumber, hhead, List.tail_cons, hdT, Option.some.injEq,
      hdm, hspan1, hspan2, href, hrEf, hnil, hFnil, reduceCtorEq,
      if_true, if_false, and_false, false_and, and_true, true_and,
      or_self, ite_false, ite_true, false_or, or_false]
    refine Prod.ext ?_ rfl
    rw [hmk false]
    simp only [Bool.false_eq_true, if_false, ite_false, JVal.num.injEq,
      and_true]
    omega

theorem parseNumber_dumpNum (m : Int) (e : Nat) (rest : List Char)
    (hrest : nextOk rest) :
    parseNumber (dumpNum m e ++ rest) = some (.num m e, rest) := by
  obtain ⟨hrd, hrdot, hre, hrE⟩ := nextOk_facts hrest
  have hdotf : (rest.head? = some '.') = False := eq_false hrdot
  have href : (rest.head? = some 'e') = False := eq_false hre
  have hrEf : (rest.head? = some 'E') = False := eq_false hrE
  by_cases hme : e = 0
  · subst hme
    have hspan := spanDigits_append (natToDigits m.natAbs) rest
      (natToDigits_all_digits _) hrd
    have hnil : (natToDigits m.natAbs = []) = False :=
      eq_false (natToDigits_ne_nil _)
    by_cases hm : m < 0
    · have hshape : dumpNum m 0 ++ rest =
          '-' :: (natToDigits m.natAbs ++ rest) := by
        simp [dumpNum, hm]
      rw [hshape]
      simp only [parseNumber, List.head?_cons, List.tail_cons, hspan,
        Option.some.injEq, hdotf, href, hrEf, hnil, reduceCtorEq,
        if_true, if_false, and_false, false_and, or_self, ite_false,
        ite_true, false_or, or_false]
      refine Prod.ext ?_ rfl
      unfold mkNum
      rw [if_pos (by simp)]
      simp only [if_true, ite_true, List.append_nil, List.length_nil,
        digitsToNat_natToDigits, Nat.cast_zero, sub_zero, Int.toNat_zero,
        pow_zero, mul_one]
      simp only [JVal.num.injEq, and_true]
      omega
    · have hshape : dumpNum m 0 ++ rest = natToDigits m.natAbs ++ rest := by
        simp [dumpNum, hm]
      obtain ⟨d, ds', hds⟩ :=
        List.exists_cons_of_ne_nil (natToDigits_ne_nil m.natAbs)
      have hddig : d.isDigit = true := by
        apply natToDigits_all_digits m.natAbs
        rw [hds]; simp
      have hdm : (d = '-') = False := by
        apply eq_false
        intro hc
        subst hc
        simp at hddig
      have hhead : (natToDigits m.natAbs ++ rest).head? = some d := by
        rw [hds]; rfl
      rw [hshape]
      simp only [parseNumber, hhead, Option.some.injEq, hdm, hspan,
        hdotf, href, hrEf, hnil, reduceCtorEq, if_true, if_false,
        and_false, false_and, or_self, ite_false, ite_true, false_or,
        or_false]
      refine Prod.ext ?_ rfl
      unfold mkNum
      rw [if_pos (by simp)]
      simp only [if_true, ite_true, Bool.false_eq_true, if_false,
        ite_false, List.append_nil, List.length_nil,
        digitsToNat_natToDigits, Nat.cast_zero, sub_zero, Int.toNat_zero,
        pow_zero, mul_one]
      simp only [JVal.num.injEq, and_true]
      omega
  · have hepos : 0 < e := Nat.pos_of_ne_zero hme
    have hfd_lt : m.natAbs % 10 ^ e < 10 ^ e :=
      Nat.mod_lt _ (Nat.pos_pow_of_pos e (by norm_num))
    have hfdlen : (natToDigits (m.natAbs % 10 ^ e)).length ≤ e :=
      natToDigits_length_le hfd_lt hepos
    have hshape : dumpNum m e ++ rest = (if m < 0 then ['-'] else []) ++
        (natToDigits (m.natAbs / 10 ^ e) ++ '.' ::
          ((List.replicate (e - (natToDigits (m.natAbs % 10 ^ e)).length) '0' ++
            natToDigits (m.natAbs % 10 ^ e)) ++ rest)) := by
      unfold dumpNum
      rw [if_neg hme]
      by_cases hm : m < 0 <;> simp [hm, List.append_assoc]
    rw [hshape]
    apply parseNumber_frac_core m e _ rest hepos
    · intro c hc
      rcases List.mem_append.mp hc with h1 | h2
      · have := List.eq_of_mem_replicate h1
        subst this
        decide
      · exact natToDigits_all_digits _ c h2
    · rw [List.length_append, List.length_replicate]
      omega
    · rw [digitsToNat_replicate_zero, digitsToNat_natToDigits]
    · exact hrest

theorem hexCharVal_hexDigitChar {d : Nat} (h : d < 16) :
    hexCharVal (hexDigitChar d) = d := by
  interval_cases d <;> decide

theorem isHexChar_hexDigitChar {d : Nat} (h : d < 16) :
    isHexChar (hexDigitChar d) = true := by
  interval_cases d <;> decide

theorem hex4_val {n : Nat} (h : n < 65536) :
    ((hexCharVal (hexDigitChar (n / 4096 % 16)) * 16 +
      hexCharVal (hexDigitChar (n / 256 % 16))) * 16 +
      hexCharVal (hexDigitChar (n / 16 % 16))) * 16 +
      hexCharVal (hexDigitChar (n % 16)) = n := by
  rw [hexCharVal_hexDigitChar (Nat.mod_lt _ (by norm_num)),
    hexCharVal_hexDigitChar (Nat.mod_lt _ (by norm_num)),
    hexCharVal_hexDigitChar (Nat.mod_lt _ (by norm_num)),
    hexCharVal_hexDigitChar (Nat.mod_lt _ (by norm_num))]
  omega

theorem parseStrUnits_uEsc {n : Nat} (h : n < 65536) (tail : List Char) :
    parseStrUnits (uEsc n ++ tail) =
      (parseStrUnits tail).map (fun p => (n :: p.1, p.2)) := by
  have h1 := isHexChar_hexDigitChar (Nat.mod_lt (n / 4096) (by norm_num : (0:Nat) < 16))
  have h2 := isHexChar_hexDigitChar (Nat.mod_lt (n / 256) (by norm_num : (0:Nat) < 16))
  have h3 := isHexChar_hexDigitChar (Nat.mod_lt (n / 16) (by norm_num : (0:Nat) < 16))
  have h4 := isHexChar_hexDigitChar (Nat.mod_lt n (by norm_num : (0:Nat) < 16))
  simp only [uEsc, hex4, List.cons_append, List.nil_append]
  simp [parseStrUnits, h1, h2, h3, h4]
  rw [hex4_val h]

theorem char_toNat_lt (c : Char) : c.toNat < 1114112 := by
  rcases char_not_surrogate c with h | h
  · omega
  · omega

theorem parseStrUnits_escape : ∀ s rest,
    parseStrUnits (escapeStr s ++ '\"' :: rest) = some (unitsOf s, rest) := by
  intro s
  induction s with
  | nil =>
    intro rest
    show parseStrUnits ([] ++ '\"' :: rest) = some ([], rest)
    rw [List.nil_append, parseStrUnits.eq_def]
    simp
  | cons c cs ih =>
    intro rest
    rw [escapeStr, List.append_assoc, unitsOf]
    by_cases h1 : c = '\"'
    · subst h1
      rw [show escapeChar '\"' = ['\\', '\"'] from by decide]
      rw [List.cons_append, List.cons_append, List.nil_append,
        parseStrUnits.eq_def]
      simp [ih, charUnits]
    · by_cases h2 : c = '\\'
      · subst h2
        rw [show escapeChar '\\' = ['\\', '\\'] from by decide]
        rw [List.cons_append, List.cons_append, List.nil_append,
          parseStrUnits.eq_def]
        simp [ih, charUnits]
      · by_cases h3 : c = Char.ofNat 8
        · subst h3
          rw [show escapeChar (Char.ofNat 8) = ['\\', 'b'] from by decide]
          rw [List.cons_append, List.cons_append, List.nil_append,
            parseStrUnits.eq_def]
          simp [ih, charUnits]
        · by_cases h4 : c = Char.ofNat 9
          · subst h4
            rw [show escapeChar (Char.ofNat 9) = ['\\', 't'] from by decide]
            rw [List.cons_append, List.cons_append, List.nil_append,
              parseStrUnits.eq_def]
            simp [ih, charUnits]
          · by_cases h5 : c = Char.ofNat 10
            · subst h5
              rw [show escapeChar (Char.ofNat 10) = ['\\', 'n'] from by decide]
              rw [List.cons_append, List.cons_append, List.nil_append,
                parseStrUnits.eq_def]
              simp [ih, charUnits]
            · by_cases h6 : c = Char.ofNat 12
              · subst h6
                rw [show escapeChar (Char.ofNat 12) = ['\\', 'f'] from by decide]
                rw [List.cons_append, List.cons_append, List.nil_append,
                  parseStrUnits.eq_def]
                simp [ih, charUnits]
              · by_cases h7 : c = Char.ofNat 13
                · subst h7
                  rw [show escapeChar (Char.ofNat 13) = ['\\', 'r'] from by decide]
                  rw [List.cons_append, List.cons_append, List.nil_append,
                    parseStrUnits.eq_def]
                  simp [ih, charUnits]
                · by_cases h8 : 32 ≤ c.toNat ∧ c.toNat ≤ 126
                  · have hesc : escapeChar c = [c] := by
                      unfold escapeChar
                      rw [if_neg h1, if_neg h2, if_neg h3, if_neg h4,
                        if_neg h5, if_neg h6, if_neg h7, if_pos h8]
                    rw [hesc, List.cons_append, List.nil_append,
                      parseStrUnits.eq_def]
                    simp only [eq_false h1, eq_false h2, if_false, ite_false,
                      ih]
                    have hlt : c.toNat < 65536 := by omega
                    simp [charUnits, hlt]
                  · have hlow : escapeChar c =
                        if c.toNat < 65536 then uEsc c.toNat
                        else uEsc (55296 + (c.toNat - 65536) / 1024) ++
                          uEsc (56320 + (c.toNat - 65536) % 1024) := by
                      unfold escapeChar
                      rw [if_neg h1, if_neg h2, if_neg h3, if_neg h4,
                        if_neg h5, if_neg h6, if_neg h7, if_neg h8]
                    rw [hlow]
                    by_cases h9 : c.toNat < 65536
                    · rw [if_pos h9, parseStrUnits_uEsc h9, ih]
                      simp [charUnits, h9]
                    · rw [if_neg h9]
                      have ht := char_toNat_lt c
                      have hhi : 55296 + (c.toNat - 65536) / 1024 < 65536 := by
                        omega
                      have hlo : 56320 + (c.toNat - 65536) % 1024 < 65536 := by
                        omega
                      rw [List.append_assoc, parseStrUnits_uEsc hhi,
                        parseStrUnits_uEsc hlo, ih]
                      simp [charUnits, h9]

theorem mergeSurrogates_unitsOf : ∀ s, mergeSurrogates (unitsOf s) = s := by
  intro s
  induction s with
  | nil => rfl
  | cons c cs ih =>
    rw [unitsOf]
    by_cases h9 : c.toNat < 65536
    · rw [charUnits, if_pos h9]
      have hns : ¬ (55296 ≤ c.toNat ∧ c.toNat ≤ 56319 ∧ True) := by
        rcases char_not_surrogate c with h | h
        · intro hc; omega
        · intro hc; omega
      cases hcs : unitsOf cs with
      | nil =>
        have hcs' : cs = [] := by
          have := ih
          rw [hcs] at this
          simpa [mergeSurrogates] using this.symm
        subst hcs'
        simp [mergeSurrogates, Char.ofNat_toNat]
      | cons b t =>
        rw [List.cons_append, List.nil_append]
        show mergeSurrogates (c.toNat :: b :: t) = c :: cs
        rw [mergeSurrogates]
        rw [if_neg (by
          rcases char_not_surrogate c with h | h
          · rintro ⟨hc, -⟩; omega
          · rintro ⟨hc1, hc2, -⟩; omega)]
        rw [← hcs, ih, Char.ofNat_toNat]
    · rw [charUnits, if_neg h9]
      have ht := char_toNat_lt c
      show mergeSurrogates ((55296 + (c.toNat - 65536) / 1024) ::
        (56320 + (c.toNat - 65536) % 1024) :: unitsOf cs) = c :: cs
      rw [mergeSurrogates]
      rw [if_pos (by
        refine ⟨by omega, by omega, by omega, by omega⟩)]
      rw [ih]
      have harith : 65536 + (55296 + (c.toNat - 65536) / 1024 - 55296) * 1024 +
          (56320 + (c.toNat - 65536) % 1024 - 56320) = c.toNat := by
        omega
      rw [harith, Char.ofNat_toNat]

theorem parseStringBody_escape (s rest : List Char) :
    parseStringBody (escapeStr s ++ '\"' :: rest) = some (s, rest) := by
  unfold parseStringBody
  rw [parseStrUnits_escape]
  simp [mergeSurrogates_unitsOf]


theorem isDigit_not_special {c : Char} (h : c.isDigit = true) :
    isWsChar c = false ∧ (c = 'n') = False ∧ (c = 't') = False ∧
    (c = 'f') = False ∧ (c = '\"') = False ∧ (c = '[') = False ∧
    (c = lbrace) = False ∧ (c = ']') = False ∧ (c = ',') = False ∧
    (c = rbrace) = False := by
  refine ⟨?_, ?_, ?_, ?_, ?_, ?_, ?_, ?_, ?_, ?_⟩
  · simp only [isWsChar, Bool.or_eq_false_iff, decide_eq_false_iff_not]
    refine ⟨⟨⟨⟨⟨?_, ?_⟩, ?_⟩, ?_⟩, ?_⟩, ?_⟩ <;> intro hc <;> subst hc <;>
      exact absurd h (by decide)
  all_goals apply eq_false; intro hc; subst hc; exact absurd h (by decide)

theorem dumpNum_head (m : Int) (e : Nat) :
    ∃ c cs, dumpNum m e = c :: cs ∧ (c = '-' ∨ c.isDigit = true) := by
  by_cases hm : m < 0
  · by_cases he : e = 0
    · exact ⟨'-', natToDigits m.natAbs, by simp [dumpNum, hm, he], Or.inl rfl⟩
    · exact ⟨'-', natToDigits (m.natAbs / 10 ^ e) ++ '.' ::
        (List.replicate (e - (natToDigits (m.natAbs % 10 ^ e)).length) '0' ++
          natToDigits (m.natAbs % 10 ^ e)),
        by simp [dumpNum, hm, he], Or.inl rfl⟩
  · by_cases he : e = 0
    · obtain ⟨d, ds, hds⟩ :=
        List.exists_cons_of_ne_nil (natToDigits_ne_nil m.natAbs)
      refine ⟨d, ds, by simp [dumpNum, hm, he, hds], Or.inr ?_⟩
      exact natToDigits_all_digits _ d (by rw [hds]; simp)
    · obtain ⟨d, ds, hds⟩ :=
        List.exists_cons_of_ne_nil (natToDigits_ne_nil (m.natAbs / 10 ^ e))
      refine ⟨d, ds ++ '.' ::
        (List.replicate (e - (natToDigits (m.natAbs % 10 ^ e)).length) '0' ++
          natToDigits (m.natAbs % 10 ^ e)),
        by simp [dumpNum, hm, he, hds], Or.inr ?_⟩
      exact natToDigits_all_digits _ d (by rw [hds]; simp)

theorem dumpVal_head (v : JVal) :
    ∃ c cs, dumpVal v = c :: cs ∧ isWsChar c = false ∧
      (c = ']') = False ∧ (c = rbrace) = False := by
  cases v with
  | null => exact ⟨'n', _, rfl, by decide, by decide, by decide⟩
  | boolv b =>
    refine b.rec ?_ ?_
    · exact ⟨'f', _, rfl, by decide, by decide, by decide⟩
    · exact ⟨'t', _, rfl, by decide, by decide, by decide⟩
  | num m e =>
    obtain ⟨c, cs, hcs, hc⟩ := dumpNum_head m e
    refine ⟨c, cs, hcs, ?_, ?_, ?_⟩
    · rcases hc with rfl | hd
      · decide
      · exact (isDigit_not_special hd).1
    · rcases hc with rfl | hd
      · decide
      · exact (isDigit_not_special hd).2.2.2.2.2.2.2.1
    · rcases hc with rfl | hd
      · decide
      · exact (isDigit_not_special hd).2.2.2.2.2.2.2.2.2
  | str s => exact ⟨'\"', _, rfl, by decide, by decide, by decide⟩
  | arr l =>
    cases l with
    | nil => exact ⟨'[', _, rfl, by decide, by decide, by decide⟩
    | cons v tl => exact ⟨'[', _, rfl, by decide, by decide, by decide⟩
  | obj l =>
    cases l with
    | nil => exact ⟨lbrace, _, rfl, by decide, by decide, by decide⟩
    | cons k v tl => exact ⟨lbrace, _, rfl, by decide, by decide, by decide⟩

theorem skipWs_dump (v : JVal) (x : List Char) :
    skipWs (dumpVal v ++ x) = dumpVal v ++ x := by
  obtain ⟨c, cs, hcs, hws, -, -⟩ := dumpVal_head v
  rw [hcs, List.cons_append, skipWs_cons_of hws]



mutual

theorem sizeValue_le_dump : ∀ v : JVal, sizeValue v ≤ (dumpVal v).length
  | .null => by simp [sizeValue, dumpVal]
  | .boolv true => by simp [sizeValue, dumpVal]
  | .boolv false => by simp [sizeValue, dumpVal]
  | .num m e => by
    obtain ⟨c, cs, hcs, -⟩ := dumpNum_head m e
    simp [sizeValue, dumpVal, hcs]
  | .str s => by simp [sizeValue, dumpVal, dumpStr]
  | .arr .nil => by simp [sizeValue, sizeItems, dumpVal]
  | .arr (.cons v tl) => by
    have h1 := sizeValue_le_dump v
    have h2 := sizeItems_le_dump tl
    simp only [sizeValue, sizeItems, dumpVal, List.cons_append,
      List.length_cons, List.length_append, List.length_nil]
    omega
  | .obj .nil => by simp [sizeValue, sizeFields, dumpVal]
  | .obj (.cons k v tl) => by
    have h1 := sizeValue_le_dump v
    have h2 := sizeFields_le_dump tl
    simp only [sizeValue, sizeFields, dumpVal, dumpStr, List.cons_append,
      List.length_cons, List.length_append, List.length_nil]
    omega

theorem sizeItems_le_dump : ∀ l : JList, sizeItems l ≤ (dumpItems l).length
  | .nil => by simp [sizeItems, dumpItems]
  | .cons v tl => by
    have h1 := sizeValue_le_dump v
    have h2 := sizeItems_le_dump tl
    simp only [sizeItems, dumpItems, List.cons_append, List.length_cons,
      List.length_append]
    omega

theorem sizeFields_le_dump : ∀ l : JObj, sizeFields l ≤ (dumpFields l).length
  | .nil => by simp [sizeFields, dumpFields]
  | .cons k v tl => by
    have h1 := sizeValue_le_dump v
    have h2 := sizeFields_le_dump tl
    simp only [sizeFields, dumpFields, dumpStr, List.cons_append,
      List.length_cons, List.length_append]
    omega

end

example (n : Nat) (rest : List Char) :
    parseValue (n+1) (dumpVal .null ++ rest) = some (.null, rest) := by
  show parseValue (n+1) ('n' :: (['u','l','l'] ++ rest)) = some (.null, rest)
  simp only [parseValue]
  rw [skipWs_cons_of (by decide)]
  simp [expectChars]

example (n : Nat) (m : Int) (e : Nat) (rest : List Char) (hrest : nextOk rest) :
    parseValue (n+1) (dumpVal (.num m e) ++ rest) = some (.num m e, rest) := by
  obtain ⟨c, cs, hcs, hc⟩ := dumpNum_head m e
  have hnum := parseNumber_dumpNum m e rest hrest
  show parseValue (n+1) (dumpNum m e ++ rest) = some (.num m e, rest)
  rw [hcs] at hnum ⊢
  rw [List.cons_append]
  simp only [parseValue]
  rcases hc with rfl | hd
  · rw [skipWs_cons_of (by decide)]
    simp only [reduceIte]
    exact hnum
  · obtain ⟨hws, hn, ht, hf, hq, hbr, hlb, -, -, -⟩ := isDigit_not_special hd
    rw [skipWs_cons_of hws]
    simp only [hn, ht, hf, hq, hbr, hlb, if_false, ite_false]
    rw [if_pos (Or.inr hd)]
    exact hnum


theorem parse_dump_main : ∀ fuel,
    (∀ v rest, sizeValue v ≤ fuel → nextOk rest →
      parseValue fuel (dumpVal v ++ rest) = some (v, rest)) ∧
    (∀ v tl rest, sizeItems (.cons v tl) ≤ fuel → nextOk rest →
      parseItems fuel ((dumpVal v ++ dumpItems tl) ++ ']' :: rest) =
        some (.cons v tl, rest)) ∧
    (∀ k v tl rest, sizeFields (.cons k v tl) ≤ fuel → nextOk rest →
      parseFields fuel
        ((dumpStr k ++ ':' :: ' ' :: dumpVal v ++ dumpFields tl) ++
          rbrace :: rest) = some (.cons k v tl, rest)) := by
  intro fuel
  induction fuel with
  | zero =>
    refine ⟨?_, ?_, ?_⟩
    · intro v rest hs _
      exfalso
      cases v <;> simp [sizeValue] at hs
    · intro v tl rest hs _
      exfalso
      simp [sizeItems] at hs
    · intro k v tl rest hs _
      exfalso
      simp [sizeFields] at hs
  | succ n ih =>
    obtain ⟨ihP, ihQ, ihR⟩ := ih
    refine ⟨?_, ?_, ?_⟩
    · intro v rest hs hrest
      cases v with
      | null =>
        show parseValue (n+1) ('n' :: (['u','l','l'] ++ rest)) =
          some (.null, rest)
        simp only [parseValue]
        rw [skipWs_cons_of (by decide)]
        simp [expectChars]
      | boolv b =>
        cases b with
        | true =>
          show parseValue (n+1) ('t' :: (['r','u','e'] ++ rest)) =
            some (.boolv true, rest)
          simp only [parseValue]
          rw [skipWs_cons_of (by decide)]
          simp [expectChars]
        | false =>
          show parseValue (n+1) ('f' :: (['a','l','s','e'] ++ rest)) =
            some (.boolv false, rest)
          simp only [parseValue]
          rw [skipWs_cons_of (by decide)]
          simp [expectChars]
      | num m e =>
        obtain ⟨c, cs, hcs, hc⟩ := dumpNum_head m e
        have hnum := parseNumber_dumpNum m e rest hrest
        show parseValue (n+1) (dumpNum m e ++ rest) = some (.num m e, rest)
        rw [hcs] at hnum ⊢
        rw [List.cons_append]
        simp only [parseValue]
        rcases hc with rfl | hd
        · rw [skipWs_cons_of (by decide)]
          simp only [reduceIte]
          exact hnum
        · obtain ⟨hws, hn, ht, hf, hq, hbr, hlb, -, -, -⟩ :=
            isDigit_not_special hd
          rw [skipWs_cons_of hws]
          simp only [hn, ht, hf, hq, hbr, hlb, if_false, ite_false]
          rw [if_pos (Or.inr hd)]
          exact hnum
      | str s =>
        have hshape : dumpVal (.str s) ++ rest =
            '\"' :: (escapeStr s ++ '\"' :: rest) := by
          simp [dumpVal, dumpStr]
        rw [hshape]
        simp only [parseValue]
        rw [skipWs_cons_of (by decide)]
        simp [parseStringBody_escape s rest]
      | arr l =>
        cases l with
        | nil =>
          show parseValue (n+1) ('[' :: (']' :: rest)) =
            some (.arr .nil, rest)
          simp [parseValue, skipWs, isWsChar]
        | cons v tl =>
          have hshape : dumpVal (.arr (.cons v tl)) ++ rest =
              '[' :: ((dumpVal v ++ dumpItems tl) ++ ']' :: rest) := by
            simp [dumpVal]
          rw [hshape]
          simp only [parseValue]
          rw [skipWs_cons_of (by decide)]
          dsimp only
          rw [if_neg (by decide), if_neg (by decide), if_neg (by decide),
            if_neg (by decide), if_pos rfl]
          obtain ⟨c, cs, hcs, hws, hrb, -⟩ := dumpVal_head v
          have hskip : skipWs ((dumpVal v ++ dumpItems tl) ++ ']' :: rest) =
              (dumpVal v ++ dumpItems tl) ++ ']' :: rest := by
            rw [List.append_assoc, skipWs_dump]
          rw [hskip]
          have hhead : ((dumpVal v ++ dumpItems tl) ++ ']' :: rest).head? =
              some c := by
            rw [hcs]
            rfl
          rw [hhead]
          rw [if_neg (by
            intro hcon
            rw [Option.some.injEq] at hcon
            exact absurd hcon (by simpa using hrb))]
          rw [ihQ v tl rest (by
            simp only [sizeValue, sizeItems] at hs ⊢
            omega) hrest]
          rfl
      | obj l =>
        cases l with
        | nil =>
          show parseValue (n+1) (lbrace :: (rbrace :: rest)) =
            some (.obj .nil, rest)
          simp [parseValue, skipWs, lbrace, rbrace, isWsChar]
        | cons k v tl =>
          have hshape : dumpVal (.obj (.cons k v tl)) ++ rest =
              lbrace :: ((dumpStr k ++ ':' :: ' ' :: dumpVal v ++
                dumpFields tl) ++ rbrace :: rest) := by
            simp [dumpVal]
          rw [hshape]
          simp only [parseValue]
          rw [skipWs_cons_of (by decide)]
          dsimp only
          rw [if_neg (by decide), if_neg (by decide), if_neg (by decide),
            if_neg (by decide), if_neg (by decide), if_pos rfl]
          have hskip : skipWs ((dumpStr k ++ ':' :: ' ' :: dumpVal v ++
              dumpFields tl) ++ rbrace :: rest) =
              (dumpStr k ++ ':' :: ' ' :: dumpVal v ++ dumpFields tl) ++
                rbrace :: rest := by
            rw [dumpStr, List.cons_append, List.cons_append,
              List.cons_append, List.cons_append,
              skipWs_cons_of (by decide)]
          rw [hskip]
          have hhead : ((dumpStr k ++ ':' :: ' ' :: dumpVal v ++
              dumpFields tl) ++ rbrace :: rest).head? = some '\"' := by
            rw [dumpStr]
            rfl
          rw [hhead]
          rw [if_neg (by decide)]
          rw [ihR k v tl rest (by
            simp only [sizeValue, sizeFields] at hs ⊢
            omega) hrest]
          rfl
    · intro v tl rest hs hrest
      have hnext : nextOk (dumpItems tl ++ ']' :: rest) := by
        cases tl with
        | nil => exact (by decide : numCont ']' = false)
        | cons w tw => exact (by decide : numCont ',' = false)
      have hP : parseValue n (dumpVal v ++ (dumpItems tl ++ ']' :: rest)) =
          some (v, dumpItems tl ++ ']' :: rest) :=
        ihP v _ (by simp only [sizeItems] at hs; omega) hnext
      simp only [parseItems]
      rw [List.append_assoc, hP]
      cases tl with
      | nil =>
        show (let r₁ := skipWs (dumpItems JList.nil ++ ']' :: rest); _ ) = _
        simp only [dumpItems, List.nil_append]
        rw [skipWs_cons_of (by decide)]
        simp
      | cons w tw =>
        simp only [dumpItems]
        rw [show (',' :: ' ' :: dumpVal w ++ dumpItems tw) ++ ']' :: rest =
          ',' :: (' ' :: (dumpVal w ++ (dumpItems tw ++ ']' :: rest))) from by
            simp [List.append_assoc]]
        rw [skipWs_cons_of (by decide)]
        simp only [List.head?_cons, Option.some.injEq, reduceIte,
          List.tail_cons]
        rw [parseItems_ws (by decide)]
        rw [show dumpVal w ++ (dumpItems tw ++ ']' :: rest) =
          (dumpVal w ++ dumpItems tw) ++ ']' :: rest from by
            simp [List.append_assoc]]
        rw [ihQ w tw rest (by simp only [sizeItems] at hs ⊢; omega) hrest]
        rfl
    · intro k v tl rest hs hrest
      have hnext : nextOk (dumpFields tl ++ rbrace :: rest) := by
        cases tl with
        | nil => exact (by decide : numCont rbrace = false)
        | cons k2 w tw => exact (by decide : numCont ',' = false)
      simp only [parseFields]
      rw [show (dumpStr k ++ ':' :: ' ' :: dumpVal v ++ dumpFields tl) ++
          rbrace :: rest =
          '\"' :: (escapeStr k ++ '\"' ::
            (':' :: (' ' :: (dumpVal v ++ (dumpFields tl ++ rbrace :: rest)))))
          from by simp [dumpStr, List.append_assoc]]
      rw [skipWs_cons_of (by decide)]
      simp only [reduceIte]
      rw [parseStringBody_escape]
      simp only
      rw [skipWs_cons_of (by decide)]
      simp only [List.head?_cons, Option.some.injEq, reduceIte,
        List.tail_cons]
      rw [parseValue_ws (by decide)]
      rw [ihP v _ (by simp only [sizeFields] at hs; omega) hnext]
      simp only
      cases tl with
      | nil =>
        simp only [dumpFields, List.nil_append]
        rw [skipWs_cons_of (by decide)]
        simp [rbrace]
      | cons k2 w tw =>
        simp only [dumpFields]
        rw [show (',' :: ' ' :: dumpStr k2 ++ ':' :: ' ' :: dumpVal w ++
            dumpFields tw) ++ rbrace :: rest =
            ',' :: (' ' :: ((dumpStr k2 ++ ':' :: ' ' :: dumpVal w ++
              dumpFields tw) ++ rbrace :: rest)) from by
            simp [List.append_assoc]]
        rw [skipWs_cons_of (by decide)]
        simp only [List.head?_cons, Option.some.injEq, reduceIte,
          List.tail_cons]
        rw [parseFields_ws (by decide)]
        rw [ihR k2 w tw rest (by simp only [sizeFields] at hs ⊢; omega) hrest]
        rfl



/-- Round trip: parsing a serialized value recovers it exactly. -/
theorem jloads_dump (v : JVal) : jloads (dumpVal v) = some v := by
  have h := (parse_dump_main ((dumpVal v).length + 1)).1 v []
    (Nat.le_succ_of_le (sizeValue_le_dump v)) trivial
  rw [List.append_nil] at h
  simp [jloads, h, skipWs]

/-- C9: `_ensure_json_list` always returns a string that parses as a JSON
array; lists are serialized as-is, strings already encoding a JSON array
are returned unchanged, any other string becomes a one-element array
containing it, and every non-list non-string value becomes `[]`. -/
theorem c9_ensure_json_list :
    (∀ v : JVal, parsesAsArr (ensure_json_list v) = true) ∧
    (∀ l : JList, ensure_json_list (.arr l) = dumpVal (.arr l)) ∧
    (∀ s : List Char, parsesAsArr s = true → ensure_json_list (.str s) = s) ∧
    (∀ s : List Char, parsesAsArr s = false →
      ensure_json_list (.str s) = dumpVal (.arr (.cons (.str s) .nil))) ∧
    (∀ v : JVal, (∀ l, v ≠ .arr l) → (∀ s, v ≠ .str s) →
      ensure_json_list v = ['[', ']']) := by
  refine ⟨?_, ?_, ?_, ?_, ?_⟩
  · intro v
    cases v with
    | str s =>
      by_cases hp : parsesAsArr s
      · simp [ensure_json_list, hp]
      · simp only [ensure_json_list]
        rw [if_neg (by simpa using hp)]
        simp [parsesAsArr, jloads_dump]
    | arr l => simp [ensure_json_list, parsesAsArr, jloads_dump]
    | null => simp [ensure_json_list, parsesAsArr, jloads_dump]
    | boolv b => simp [ensure_json_list, parsesAsArr, jloads_dump]
    | num m e => simp [ensure_json_list, parsesAsArr, jloads_dump]
    | obj l => simp [ensure_json_list, parsesAsArr, jloads_dump]
  · intro l
    rfl
  · intro s hp
    simp [ensure_json_list, hp]
  · intro s hp
    simp [ensure_json_list, hp]
  · intro v harr hstr
    cases v with
    | arr l => exact absurd rfl (harr l)
    | str s => exact absurd rfl (hstr s)
    | null => rfl
    | boolv b => rfl
    | num m e => rfl
    | obj l => rfl

theorem c9_ensure_json_list_witness :
    parsesAsArr (ensure_json_list (.num 7 0)) = true ∧
    ensure_json_list (.str ['[', ']']) = ['[', ']'] ∧
    ensure_json_list (.str ['h', 'i']) =
      dumpVal (.arr (.cons (.str ['h', 'i']) .nil)) ∧
    ensure_json_list (.boolv true) = ['[', ']'] :=
  ⟨c9_ensure_json_list.1 (.num 7 0),
   c9_ensure_json_list.2.2.1 ['[', ']'] (by decide),
   c9_ensure_json_list.2.2.2.1 ['h', 'i'] (by decide),
   c9_ensure_json_list.2.2.2.2 (.boolv true)
     (fun l h => nomatch h) (fun s h => nomatch h)⟩

end Pipeline
